import Mathlib

/-!
Verification development for the Dota 2 GSI ingestion and context-synthesis
pipeline: a shallow embedding of `src/gsi/state_manager.py`,
`src/gsi/server.py` and `src/data/gsi/processing/game_state_processor.py`,
together with proofs of the frozen claims about them.

Modelling conventions:
* JSON values are the mutual inductive `JVal`/`JObj`/`JArr` (objects as
  insertion-ordered association lists, mirroring Python dicts).
* Python dict primitives (`d[k]`, `d.get`, `d[k] = v`, `d.update`) become
  `alookup`/`jlookup`, `setKey`/`jSetKey` and `objUpdate`; assignment keeps an
  existing key at its position and appends a fresh key, as CPython does.
* Numeric telemetry is modelled with `Int` (the feed carries integers for the
  fields the claims touch); Python float arithmetic (`h / m * 100` followed
  by `int(...)`) is modelled bit-exactly over the integers as IEEE-754
  binary64 round-to-nearest-even (`pyPercent`).
* Exceptions are modelled explicitly: a function that can raise returns an
  `Option` (or carries a success flag when partial mutations survive the
  raise, as they do inside `StateManager.update_state`'s `try/except`).
* File persistence (`save_state`) and logging are effect-free for every
  property below and are modelled as no-ops.
-/

-- Python-style JSON value.  `obj` is an insertion-ordered dict.
mutual
inductive JVal where
  | null
  | bool (b : Bool)
  | int (n : Int)
  | str (s : String)
  | obj (o : JObj)
  | arr (a : JArr)
deriving DecidableEq

inductive JObj where
  | nil
  | cons (k : String) (v : JVal) (rest : JObj)
deriving DecidableEq

inductive JArr where
  | nil
  | cons (v : JVal) (rest : JArr)
deriving DecidableEq
end

/-- Build a `JObj` from a list of key/value pairs (literal convenience). -/
def JObj.ofList : List (String × JVal) → JObj
  | [] => .nil
  | (k, v) :: rest => .cons k v (JObj.ofList rest)

/-- Flatten a `JObj` back to a list of key/value pairs. -/
def JObj.toList : JObj → List (String × JVal)
  | .nil => []
  | .cons k v rest => (k, v) :: rest.toList

/-- Build a `JArr` from a list. -/
def JArr.ofList : List JVal → JArr
  | [] => .nil
  | v :: rest => .cons v (JArr.ofList rest)

/-- Flatten a `JArr` to a list. -/
def JArr.toList : JArr → List JVal
  | .nil => []
  | .cons v rest => v :: rest.toList

/-- Dict lookup on a `JObj` (Python `d[k]` / `d.get(k)`), first binding wins. -/
def jlookup : JObj → String → Option JVal
  | .nil, _ => none
  | .cons k v rest, key => if k = key then some v else jlookup rest key

/-- Python truthiness of a JSON value (`if v:`). -/
def truthy : JVal → Bool
  | .null => false
  | .bool b => b
  | .int n => n != 0
  | .str s => !s.isEmpty
  | .obj o => !(o matches .nil)
  | .arr a => !(a matches .nil)

/-- Generic association-list lookup (Python `d.get(k)` on top-level dicts
whose values live outside `JVal`), first binding wins. -/
def alookup {α : Type} : List (String × α) → String → Option α
  | [], _ => none
  | (k, v) :: rest, key => if k = key then some v else alookup rest key

/-- Python `d[k] = v`: replace in place if the key exists, else append. -/
def setKey {α : Type} (st : List (String × α)) (key : String) (v : α) :
    List (String × α) :=
  if (alookup st key).isSome then
    st.map (fun p => if p.1 = key then (key, v) else p)
  else
    st ++ [(key, v)]

/-- Python `d[k] = v` on a `JObj`. -/
def jSetKey (o : JObj) (key : String) (v : JVal) : JObj :=
  JObj.ofList (setKey o.toList key v)

/-- `none`-defaulting choice (used to state last-writer-wins merges). -/
def oElse {α : Type} : Option α → Option α → Option α
  | some v, _ => some v
  | none, b => b

/-!  ### Python string helpers

Lean core's `String.replace`/`String.splitOn` are loops over byte positions
that the kernel cannot always unfold, so the Python string operations used by
the source are re-implemented structurally over `List Char`. -/

/-- One pass of Python `str.replace`: non-overlapping, left to right.  The
fuel argument (instantiated with the length of the subject) only makes the
recursion structural; it never runs out. -/
def replaceChars (pat rep : List Char) : List Char → Nat → List Char
  | l, 0 => l
  | [], _ + 1 => []
  | c :: cs, fuel + 1 =>
    if pat ≠ [] && pat.isPrefixOf (c :: cs) then
      rep ++ replaceChars pat rep ((c :: cs).drop pat.length) fuel
    else
      c :: replaceChars pat rep cs fuel

/-- Python `s.replace(pat, rep)` (for non-empty `pat`, the only use here). -/
def pyReplace (s pat rep : String) : String :=
  ⟨replaceChars pat.data rep.data s.data s.data.length⟩

/-- Python `pat in s` substring test. -/
def containsSub (pat : List Char) : List Char → Bool
  | [] => pat.isPrefixOf []
  | c :: cs => pat.isPrefixOf (c :: cs) || containsSub pat cs

/-- Python `pat in s` on strings. -/
def pyIn (pat s : String) : Bool :=
  containsSub pat.data s.data

/-- Python `str.capitalize()`: first character upper-cased, rest lower-cased. -/
def pyCapitalize (s : String) : String :=
  match s.data with
  | [] => ""
  | c :: cs => ⟨c.toUpper :: cs.map Char.toLower⟩

/-- Python `sep.join(parts)`. -/
def joinSep (sep : String) : List String → String
  | [] => ""
  | [s] => s
  | s :: rest => s ++ sep ++ joinSep sep rest

/-- Python `str(v)` as used inside the source's f-strings.  The claims only
interpolate strings and integers; the container cases carry a fixed marker
and are never reached by any theorem below. -/
def pyStr : JVal → String
  | .null => "None"
  | .bool true => "True"
  | .bool false => "False"
  | .int n => toString n
  | .str s => s
  | .obj _ => "<dict>"
  | .arr _ => "<list>"

/-- Python `d.get(k, default)` on a `JObj`. -/
def jGetD (o : JObj) (k : String) (d : JVal) : JVal :=
  (jlookup o k).getD d

/-!  ### State Store — `src/gsi/state_manager.py`

`StateManager.state` is a Python dict whose values are either category dicts
(written by the merge loop) or the ally/enemy hero-name lists (written by the
match reset and by `HeroExtractor`), so its value type is `SVal`.  A payload
(`new_state`) arriving through the endpoint is a dict from category name to
category dict, so it is `Payload`.  `save_state` and `StateLogger.log_state`
only perform file I/O and are dropped. -/

/-- A top-level value of `StateManager.state`. -/
inductive SVal where
  | obj (o : List (String × JVal))
  | strs (l : List String)
deriving DecidableEq

/-- A GSI payload as handed to `StateManager.update_state`: a dict mapping
category names to category dicts (the shape `server.py` always passes). -/
abbrev Payload := List (String × List (String × JVal))

/-- The mutable fields of `StateManager` (lock and paths dropped: every
public operation is modelled as atomic, as the single `Lock` makes it). -/
structure StateManager where
  state : List (String × SVal)
  current_match_id : Option JVal
  heroes_tracked : Bool
deriving DecidableEq

/-- The fresh manager (`__init__` with no persisted file present). -/
def initManager : StateManager := ⟨[], none, false⟩

/-- `new_state.get("map", {}).get("matchid")`. -/
def getMatchId (p : Payload) : Option JVal :=
  alookup ((alookup p "map").getD []) "matchid"

/-- The minimap category of a payload, `game_state.get("minimap", {})`. -/
def minimapOf (p : Payload) : List (String × JVal) :=
  (alookup p "minimap").getD []

/-- The loop body of `HeroExtractor.extract_hero_lists` over the minimap
entries.  Returns the ally and enemy lists after the scan plus a success
flag: `false` means a `raise` escaped the loop (entry not a dict, a truthy
non-string `name`, or a non-string `image`), in which case the lists hold the
mutations made before the raise and the caller skips everything after the
loop, exactly as the `try/except` in `update_state` does. -/
def entryStep (al en : List String) : JVal →
    Option (List String × List String)
  | .obj fields =>
    let nameV := (jlookup fields "name").getD .null
    if truthy nameV then
      match nameV with
      | .str s =>
        let cleaned := pyReplace s "npc_dota_hero_" ""
        match (jlookup fields "image").getD (.str "") with
        | .str img =>
          if pyIn "herocircle_self" img || pyIn "herocircle" img then
            some (if cleaned ∈ al then al else al ++ [cleaned], en)
          else if img = "minimap_enemyicon" then
            some (al, if cleaned ∈ en then en else en ++ [cleaned])
          else
            some (al, en)
        | _ => none
      | _ => none
    else
      some (al, en)
  | _ => none

/-- The minimap loop: fold `entryStep` over the entries, stopping with the
failure flag at the first raise (every raise inside one iteration happens
before that iteration mutates either list, so an iteration is atomic). -/
def extractLoop : List (String × JVal) → List String → List String →
    List String × List String × Bool
  | [], al, en => (al, en, true)
  | (_, v) :: rest, al, en =>
    match entryStep al en v with
    | none => (al, en, false)
    | some r => extractLoop rest r.1 r.2

/-- `HeroExtractor.extract_hero_lists(game_state, state_manager_instance)`.
Ensures the `allies`/`enemies` keys exist, scans the minimap, writes the
lists back and flips `heroes_tracked` once `|allies| + |enemies| == 10`.
The returned flag is `false` when an exception escaped (then the cardinality
check and everything after it in `update_state` are skipped).  The fallback
branch (an `allies`/`enemies` entry that is not a list) is likewise modelled
as an error; no reachable state of the model puts a dict there.
The two initializing `if "allies" not in state` statements are factored into
`ensureHeroKeys`. -/
def ensureKey (st : List (String × SVal)) (k : String) :
    List (String × SVal) :=
  if (alookup st k).isSome then st else setKey st k (.strs [])

def ensureHeroKeys (st : List (String × SVal)) : List (String × SVal) :=
  ensureKey (ensureKey st "allies") "enemies"

def extract_hero_lists (game_state : Payload) (mgr : StateManager) :
    StateManager × Bool :=
  let st2 := ensureHeroKeys mgr.state
  match alookup st2 "allies", alookup st2 "enemies" with
  | some (.strs al), some (.strs en) =>
    let r := extractLoop (minimapOf game_state) al en
    let st3 := setKey (setKey st2 "allies" (.strs r.1)) "enemies" (.strs r.2.1)
    if r.2.2 then
      let tracked := if r.1.length + r.2.1.length = 10 then true
                     else mgr.heroes_tracked
      ({ state := st3, current_match_id := mgr.current_match_id,
         heroes_tracked := tracked }, true)
    else
      ({ state := st3, current_match_id := mgr.current_match_id,
         heroes_tracked := mgr.heroes_tracked }, false)
  | _, _ =>
    ({ state := st2, current_match_id := mgr.current_match_id,
       heroes_tracked := mgr.heroes_tracked }, false)

/-- Python `stored.update(data)`: iterate `data` in order, assigning each
key (existing keys keep their position, fresh keys append). -/
def objUpdate (base data : List (String × JVal)) : List (String × JVal) :=
  data.foldl (fun acc kv => setKey acc kv.1 kv.2) base

/-- The merge loop of `update_state`: for each payload category, create the
stored entry if missing, then `dict.update` it.  A stored entry that is a
list (not a dict) raises `AttributeError`; the flag reports it and the state
at the raise point is kept, mirroring the surrounding `try/except`. -/
def mergeCats : List (String × SVal) → Payload → List (String × SVal) × Bool
  | st, [] => (st, true)
  | st, (c, d) :: rest =>
    match alookup st c with
    | some (.strs _) => (st, false)
    | some (.obj o) => mergeCats (setKey st c (.obj (objUpdate o d))) rest
    | none => mergeCats (setKey st c (.obj (objUpdate [] d))) rest

/-- `StateManager.update_state(new_state)`: match-change reset, hero
extraction while not yet tracked, category-wise shallow merge, persist
(no-op here).  The whole body runs inside `try/except`, so an exception in
extraction skips the merge and an exception in the merge keeps the partially
merged state.  The match-change reset (lines 145-156) is `resetStage`. -/
def resetStage (mgr : StateManager) (new_state : Payload) : StateManager :=
  if getMatchId new_state ≠ mgr.current_match_id then
    { state := setKey (setKey mgr.state "allies" (.strs []))
        "enemies" (.strs []),
      current_match_id := getMatchId new_state, heroes_tracked := false }
  else mgr

def update_state (mgr : StateManager) (new_state : Payload) : StateManager :=
  let mgr1 := resetStage mgr new_state
  if mgr1.heroes_tracked then
    { mgr1 with state := (mergeCats mgr1.state new_state).1 }
  else
    match extract_hero_lists new_state mgr1 with
    | (mgr2, true) => { mgr2 with state := (mergeCats mgr2.state new_state).1 }
    | (mgr2, false) => mgr2

/-- `StateManager.get_state()`: the in-memory dict, or `None` when empty
(the disk fallback only exists in `load_state`, which runs at construction
in a reader process and is not part of the claims here). -/
def get_state (mgr : StateManager) : Option (List (String × SVal)) :=
  if mgr.state.isEmpty then none else some mgr.state

/-- A sequence of `update_state` calls. -/
def applyUpdates (mgr : StateManager) (ps : List Payload) : StateManager :=
  ps.foldl update_state mgr

/-- A sequence interleaving `update_state` calls (`some p`) with `get_state`
calls (`none`); `get_state` is read-only, so it is evaluated and its result
discarded. -/
def applyOps (mgr : StateManager) : List (Option Payload) → StateManager
  | [] => mgr
  | none :: rest =>
    let _ := get_state mgr
    applyOps mgr rest
  | some p :: rest => applyOps (update_state mgr p) rest

/-- The ally list stored in a manager state (empty when absent). -/
def alliesOf (st : List (String × SVal)) : List String :=
  match alookup st "allies" with
  | some (.strs l) => l
  | _ => []

/-- The enemy list stored in a manager state (empty when absent). -/
def enemiesOf (st : List (String × SVal)) : List String :=
  match alookup st "enemies" with
  | some (.strs l) => l
  | _ => []

/-- `|allies| + |enemies|` for a manager. -/
def heroCount (mgr : StateManager) : Nat :=
  (alliesOf mgr.state).length + (enemiesOf mgr.state).length

/-- Field-level read of a stored category: `state[c][k]` when `c` is bound
to a dict. -/
def fieldLookup (st : List (String × SVal)) (c k : String) : Option JVal :=
  match alookup st c with
  | some (.obj o) => alookup o k
  | _ => none

/-!  ### Ingestion endpoint — `src/gsi/server.py`

`receive_game_state` parses the POST body through the pydantic model
`GameStateUpdate` (nine `dict` fields, each defaulting to `{}`).  Pydantic's
default configuration ignores unknown fields, so parsing depends only on the
nine known keys; a known key bound to a non-dict fails validation and FastAPI
answers 422.  `update.dict()` then always carries exactly the nine fields. -/

/-- The nine known top-level categories, in `GameStateUpdate` field order. -/
def knownCategories : List String :=
  ["provider", "map", "player", "hero", "abilities", "items", "buildings",
   "draft", "minimap"]

/-- Validation of one known field: absent fields default to `{}`, dict
fields are taken as-is, anything else is a validation error. -/
def parseCat (raw : List (String × JVal)) (c : String) :
    Option (List (String × JVal)) :=
  match alookup raw c with
  | none => some []
  | some (.obj o) => some o.toList
  | some _ => none

/-- Field-by-field validation over a list of category names. -/
def parseCats (raw : List (String × JVal)) : List String → Option Payload
  | [] => some []
  | c :: rest =>
    match parseCat raw c with
    | none => none
    | some o =>
      match parseCats raw rest with
      | none => none
      | some tl => some ((c, o) :: tl)

/-- Pydantic parse of the POST body into `update.dict()`: the nine known
categories in field order; `none` is a 422 validation error.  Unknown
top-level keys in `raw` are ignored. -/
def parseGameStateUpdate (raw : List (String × JVal)) : Option Payload :=
  parseCats raw knownCategories

/-- The three responses `receive_game_state` can produce. -/
inductive GsiResponse where
  | received
  | empty
  | unprocessable
deriving DecidableEq

/-- `receive_game_state(update)`: reject on validation failure, answer
`empty` without merging when every category is empty, otherwise merge and
answer `received`. -/
def receive_game_state (mgr : StateManager) (raw : List (String × JVal)) :
    GsiResponse × StateManager :=
  match parseGameStateUpdate raw with
  | none => (.unprocessable, mgr)
  | some fields =>
    if fields.all (fun cd => cd.2.isEmpty) then (.empty, mgr)
    else (.received, update_state mgr fields)

/-!  ### Context Synthesizer — `src/data/gsi/processing/game_state_processor.py`

Each section helper returns `Option String`: `none` models an exception
escaping the helper.  `convert_game_state_to_text` evaluates the sections in
source order inside one `try/except`; the first `none` aborts the whole
render with the fixed error text. -/

/-- `_process_map_data`.  A falsy argument returns `""`; a truthy non-dict
raises at the first `.get`. -/
def _process_map_data (map_data : JVal) : Option String :=
  if !truthy map_data then some ""
  else
    match map_data with
    | .obj o => some
        ("Game State: " ++ pyStr (jGetD o "game_state" (.str "Unknown")) ++
         ", Match ID: " ++ pyStr (jGetD o "matchid" (.str "Unknown")) ++
         ", Game Time: " ++ pyStr (jGetD o "game_time" (.int 0)) ++
         "s, Score: " ++ pyStr (jGetD o "radiant_score" (.int 0)) ++
         " - " ++ pyStr (jGetD o "dire_score" (.int 0)))
    | _ => none

/-- `_process_player_data`. -/
def _process_player_data (player_data : JVal) : Option String :=
  if !truthy player_data then some ""
  else
    match player_data with
    | .obj o => some
        ("Player: " ++ pyStr (jGetD o "name" (.str "Unknown")) ++
         " [Team: " ++ pyStr (jGetD o "team_name" (.str "Unknown")) ++
         ", K/D/A: " ++ pyStr (jGetD o "kills" (.int 0)) ++ "/" ++
         pyStr (jGetD o "deaths" (.int 0)) ++ "/" ++
         pyStr (jGetD o "assists" (.int 0)) ++
         ", LH/DN: " ++ pyStr (jGetD o "last_hits" (.int 0)) ++ "/" ++
         pyStr (jGetD o "denies" (.int 0)) ++
         ", GPM/XPM: " ++ pyStr (jGetD o "gpm" (.int 0)) ++ "/" ++
         pyStr (jGetD o "xpm" (.int 0)) ++ "]")
    | _ => none

/-- `_process_hero_data`.  The `name` default is the string `"Unknown"`; a
truthy non-string name raises at `.replace`. -/
def _process_hero_data (hero_data : JVal) : Option String :=
  if !truthy hero_data then some ""
  else
    match hero_data with
    | .obj o =>
      match jGetD o "name" (.str "Unknown") with
      | .str s => some
          ("Hero: " ++ pyReplace s "npc_dota_hero_" "" ++
           " [Level " ++ pyStr (jGetD o "level" (.int 0)) ++
           ", HP: " ++ pyStr (jGetD o "health" (.int 0)) ++ "/" ++
           pyStr (jGetD o "max_health" (.int 0)) ++
           ", MP: " ++ pyStr (jGetD o "mana" (.int 0)) ++ "/" ++
           pyStr (jGetD o "max_mana" (.int 0)) ++ "]")
      | _ => none
    | _ => none

/-- One ability entry: `f"{name}(Lv{level}, CD:{cooldown})"` with the
hero-specific prefix stripped from the ability name. -/
def abilityText (heroPart : String) (info : JVal) : Option String :=
  match info with
  | .obj o =>
    match jGetD o "name" (.str "Unknown") with
    | .str nm => some
        (pyReplace nm (heroPart ++ "_") "" ++
         "(Lv" ++ pyStr (jGetD o "level" (.int 0)) ++
         ", CD:" ++ pyStr (jGetD o "cooldown" (.int 0)) ++ ")")
    | _ => none
  | _ => none

/-- `hero_data.get('name', 'Unknown').split('npc_dota_hero_')[-1]` for a
truthy hero dict, else `"Unknown"`. -/
def heroPartOf (hero_data : JVal) : Option String :=
  if !truthy hero_data then some "Unknown"
  else
    match hero_data with
    | .obj h =>
      match jGetD h "name" (.str "Unknown") with
      | .str s => some ((s.splitOn "npc_dota_hero_").getLastD "")
      | _ => none
    | _ => none

/-- `_process_abilities_data`. -/
def _process_abilities_data (abilities_data hero_data : JVal) :
    Option String :=
  if !truthy abilities_data then some ""
  else
    match abilities_data with
    | .obj o => do
      let part ← heroPartOf hero_data
      let texts ← (o.toList).mapM (fun kv => abilityText part kv.2)
      if texts.isEmpty then pure ""
      else pure ("Abilities: " ++ joinSep ", " texts)
    | _ => none

/-- One item slot: kept when the slot is a dict whose `name` is not the
string `"empty"`; a kept slot without a `name` key raises `KeyError`, and a
kept slot with a non-string name raises at `.replace`. -/
def itemText (info : JVal) : Option (Option String) :=
  match info with
  | .obj o =>
    if jGetD o "name" .null = .str "empty" then some none
    else
      match jlookup o "name" with
      | some (.str nm) =>
        match jGetD o "charges" (.int 0) with
        | .int c =>
          some (some (pyReplace nm "item_" "" ++
            (if c > 0 then "(" ++ toString c ++ ")" else "")))
        | _ => none
      | _ => none
  | _ => some none

/-- `_process_items_data`: non-dict slots and slots named `"empty"` are
filtered out; the rest render as `name(charges)`. -/
def _process_items_data (items_data : JVal) : Option String :=
  if !truthy items_data then some ""
  else
    match items_data with
    | .obj o => do
      let opts ← (o.toList).mapM (fun kv => itemText kv.2)
      let texts := opts.filterMap id
      if texts.isEmpty then pure ""
      else pure ("Items: " ++ joinSep ", " texts)
    | _ => none

/-!  #### Binary64 model of `int(health / max_health * 100)`

CPython evaluates `h / m` on ints as the correctly rounded binary64 double
of the exact quotient, multiplies by the exactly representable `100` with
one more correct rounding, and `int(...)` truncates toward zero.  The
pipeline is reproduced here over the integers: a nonzero double is carried
as an exact pair `(mantissa, exponent)` with value `M * 2^E` and a 53-bit
mantissa, rounding is round-to-nearest with ties to even.  The exponent is
unbounded (no overflow to infinity, no subnormal flush), which agrees with
Python for every magnitude the telemetry can carry. -/

/-- Number of binary digits of `n` (the fuel only makes the recursion
structural; `n` itself is always enough of it). -/
def bitLenAux : Nat → Nat → Nat
  | 0, _ => 0
  | fuel + 1, n => if n = 0 then 0 else bitLenAux fuel (n / 2) + 1

/-- `⌊log2 n⌋ + 1` for positive `n`, `0` for `0`. -/
def bitLen (n : Nat) : Nat := bitLenAux n n

/-- `N / D` rounded to the nearest integer, ties to even (`D > 0`). -/
def rneDiv (N D : Nat) : Nat :=
  let q := N / D
  let r := N % D
  if 2 * r < D then q
  else if D < 2 * r then q + 1
  else if q % 2 = 0 then q else q + 1

/-- Decide `n / d ≥ 2 ^ t` over the rationals, in integers (`d > 0`). -/
def qGe (n d : Nat) (t : Int) : Bool :=
  if 0 ≤ t then d * 2 ^ t.toNat ≤ n else d ≤ n * 2 ^ (-t).toNat

/-- The binary64 double nearest to `n / d` (`d > 0`), as an exact
mantissa/exponent pair with value `M * 2^E`; `(0, 0)` for `n = 0`. -/
def floatDivN (n d : Nat) : Nat × Int :=
  if n = 0 then (0, 0)
  else
    let e0 : Int := (bitLen n : Int) - (bitLen d : Int)
    let e : Int := if qGe n d e0 then e0 else e0 - 1
    let s : Int := 52 - e
    if 0 ≤ s then (rneDiv (n * 2 ^ s.toNat) d, e - 52)
    else (rneDiv n (d * 2 ^ (-s).toNat), e - 52)

/-- One correctly rounded binary64 multiplication by the exact `100`. -/
def mul100Round (ME : Nat × Int) : Nat × Int :=
  let X := ME.1 * 100
  let b := bitLen X
  if b ≤ 53 then (X, ME.2)
  else (rneDiv X (2 ^ (b - 53)), ME.2 + ((b - 53 : Nat) : Int))

/-- `⌊M * 2^E⌋` for a nonnegative mantissa (truncation toward zero). -/
def truncPow (ME : Nat × Int) : Nat :=
  if 0 ≤ ME.2 then ME.1 * 2 ^ ME.2.toNat else ME.1 / 2 ^ (-ME.2).toNat

/-- Python `int(h / m * 100)` for ints `h`, `m ≠ 0`: correctly rounded
binary64 division, correctly rounded multiplication by `100`, truncation
toward zero (all three steps sign-symmetric, as in IEEE-754).  Validated
bit-exactly against CPython across signs, magnitudes up to `2^70` and
tie-to-even cases of both roundings. -/
def pyPercent (h m : Int) : Int :=
  let mag : Int := truncPow (mul100Round (floatDivN h.natAbs m.natAbs))
  if (h < 0 ∧ 0 < m) ∨ (0 < h ∧ m < 0) then -mag else mag

/-- One building: `int((health / max_health_default_1) * 100)` where the
default `1` applies only when the `max_health` key is absent.  A present
`max_health` of `0` raises `ZeroDivisionError` (`none`) at the division,
before any float is produced; otherwise the percentage is the binary64
value `pyPercent`. -/
def buildingText (bname : String) (info : JVal) : Option String :=
  match info with
  | .obj o =>
    match jGetD o "health" (.int 0), jGetD o "max_health" (.int 1) with
    | .int h, .int m =>
      if m = 0 then none
      else some (bname ++ "(" ++ toString (pyPercent h m) ++ "%)")
    | _, _ => none
  | _ => none

/-- One team line of `_process_buildings_data`. -/
def teamBuildingsText (team : String) (tv : JVal) : Option (Option String) :=
  match tv with
  | .obj tb => do
    let texts ← (tb.toList).mapM (fun kv => buildingText kv.1 kv.2)
    if texts.isEmpty then pure none
    else pure (some (pyCapitalize team ++ " Buildings: " ++ joinSep ", " texts))
  | _ => none

/-- `_process_buildings_data`: empty (or all-falsy) buildings render as the
empty section; otherwise one line per team. -/
def _process_buildings_data (buildings_data : JVal) : Option String :=
  match buildings_data with
  | .obj o =>
    if !truthy buildings_data ||
        (o.toList).all (fun kv => !truthy kv.2) then some ""
    else do
      let lines ← (o.toList).mapM (fun kv => teamBuildingsText kv.1 kv.2)
      pure (joinSep "\n" (lines.filterMap id))
  | v => if !truthy v then some "" else none

/-- `_process_hero_lists_data` for one of the two lists: a falsy value emits
nothing, an array of strings joins, anything else raises inside
`', '.join`. -/
def heroListLine (label : String) (v : JVal) : Option (Option String) :=
  if !truthy v then some none
  else
    match v with
    | .arr a => do
      let names ← (a.toList).mapM (fun j =>
        match j with
        | JVal.str s => some s
        | _ => none)
      pure (some (label ++ joinSep ", " names))
    | _ => none

/-- `_process_hero_lists_data`. -/
def _process_hero_lists_data (allies enemies : JVal) : Option String := do
  let l1 ← heroListLine "Allies: " allies
  let l2 ← heroListLine "Enemies: " enemies
  pure (joinSep "\n" ([l1, l2].filterMap id))

/-!  ### Positional inference (`find_closest_landmark` and the ward section)

The source compares Euclidean distances computed with `** 0.5`.  Square root
is strictly monotone, so the scan is modelled on exact squared distances:
`dist < min_distance` holds exactly when the squared comparison does, and
ties (equal floats) keep the earlier landmark in both versions. -/

/-- Squared Euclidean distance (the source's `distance` up to the monotone
square root). -/
def sqDist (x1 y1 x2 y2 : Int) : Int :=
  (x1 - x2) * (x1 - x2) + (y1 - y2) * (y1 - y2)

/-- The direction computation at the end of `find_closest_landmark`:
`dx = x - landmark_x`, `dy = y - landmark_y`. -/
def directionFrom (dx dy : Int) : String :=
  if dx.natAbs > dy.natAbs then
    if dx > 0 then "east of" else "west of"
  else
    if dy > 0 then "north of" else "south of"

/-- `find_closest_landmark(x, y, landmarks)`: strict-inequality scan (first
landmark wins ties), then the compass direction relative to the winner; the
empty table yields the sentinel pair. -/
def find_closest_landmark (x y : Int)
    (landmarks : List (String × Int × Int)) : String × String :=
  let best := landmarks.foldl
    (fun acc l =>
      match acc with
      | none => some l
      | some b =>
        if sqDist x y l.2.1 l.2.2 < sqDist x y b.2.1 b.2.2 then some l
        else acc)
    none
  match best with
  | none => ("an unknown location", "Unknown")
  | some (name, lx, ly) => (name, directionFrom (x - lx) (y - ly))

/-- The static landmark table defined inside
`_process_ward_and_location_data`. -/
def landmarkTable : List (String × Int × Int) :=
  [("Radiant Top T1", -6336, 1856), ("Radiant Top T2", -6288, -872),
   ("Radiant Top T3", -6592, -3408), ("Radiant Mid T1", -1544, -1408),
   ("Radiant Mid T2", -3336, -2791), ("Radiant Mid T3", -4640, -4144),
   ("Radiant Bot T1", 4924, -6080), ("Radiant Bot T2", -360, -6256),
   ("Radiant Bot T3", -3952, -6112), ("Radiant Top Rax", -6336, -3758),
   ("Radiant Mid Rax", -4672, -4552), ("Radiant Bot Rax", -4280, -6360),
   ("Radiant Ancient", -5920, -5352), ("Radiant Fountain", -7456, -6938),
   ("Dire Top T1", -4672, 6016), ("Dire Top T2", -128, 6016),
   ("Dire Top T3", 3552, 5776), ("Dire Mid T1", 524, 652),
   ("Dire Mid T2", 2496, 2112), ("Dire Mid T3", 4272, 3759),
   ("Dire Bot T1", 6269, -2240), ("Dire Bot T2", 6400, 384),
   ("Dire Bot T3", 6336, 3032), ("Dire Top Rax", 3898, 5496),
   ("Dire Mid Rax", 4336, 4183), ("Dire Bot Rax", 6592, 3392),
   ("Dire Ancient", 5528, 5000), ("Dire Fountain", 7408, 6848),
   ("Top Powerup Rune Spawn", -6800, 2400),
   ("Bot Powerup Rune Spawn", 6800, -2600),
   ("Top Radiant Secret Shop", -5080, 1947),
   ("Bot Radiant Secret Shop", -6860, -5262),
   ("Top Dire Secret Shop", 5360, 5384),
   ("Bot Dire Secret Shop", 4886, -1207),
   ("Radiant Outpost Top", -4096, -448), ("Radiant Outpost Bot", 3392, -448),
   ("Dire Outpost Top", -3332, 35), ("Dire Outpost Bot", 4068, -868),
   ("Roshan", 2900, 2600), ("Top Lotus Pool", -7682, 4419),
   ("Bot Lotus Pool", 8007, -4996), ("Top Twin Gate", -7488, 6912),
   ("Bot Twin Gate", 7360, -6528)]

/-- State threaded through the minimap scan of
`_process_ward_and_location_data`: location lines in order plus the two ward
counters. -/
structure WardScan where
  lines : List String
  observers : Nat
  sentries : Nat

/-- The hero branch of the ward/location scan (the `herocircle` if/elif). -/
def wardHeroLine (acc : WardScan) (o : JObj) (image_type : String)
    (x y : Int) : Option WardScan :=
  if pyIn "herocircle_self" image_type then
    let r := find_closest_landmark x y landmarkTable
    some { acc with lines := acc.lines ++
      ["Hero is " ++ r.2 ++ " " ++ r.1 ++ "."] }
  else if pyIn "herocircle" image_type then
    match jGetD o "name" (.str "") with
    | .str nm =>
      let hero_name := pyReplace nm "npc_dota_hero_" ""
      let r := find_closest_landmark x y landmarkTable
      some { acc with lines := acc.lines ++
        [pyCapitalize hero_name ++ " is " ++ r.2 ++ " " ++ r.1 ++ "."] }
    | _ => none
  else some acc

/-- The ward-count branch of the scan (the separate `unitname` if/elif). -/
def wardCountLine (acc : WardScan) (unitname : String) (x y : Int) :
    WardScan :=
  if unitname = "npc_dota_observer_wards" then
    let r := find_closest_landmark x y landmarkTable
    { acc with
      lines := acc.lines ++ ["Observer ward " ++ r.2 ++ " " ++ r.1 ++ "."],
      observers := acc.observers + 1 }
  else if unitname = "npc_dota_sentry_wards" then
    let r := find_closest_landmark x y landmarkTable
    { acc with
      lines := acc.lines ++ ["Sentry ward " ++ r.2 ++ " " ++ r.1 ++ "."],
      sentries := acc.sentries + 1 }
  else acc

/-- One minimap entry of the ward/location scan.  `none` models a raise
(non-dict entry, or a `name`/`image`/`unitname`/position field of an
unexpected type). -/
def wardStep (acc : WardScan) (v : JVal) : Option WardScan :=
  match v with
  | .obj o =>
    match jGetD o "image" (.str ""), jGetD o "unitname" (.str "") with
    | .str image_type, .str unitname =>
      let xv := (jlookup o "xpos").getD .null
      let yv := (jlookup o "ypos").getD .null
      if xv = .null || yv = .null then some acc
      else
        match xv, yv with
        | .int x, .int y =>
          match wardHeroLine acc o image_type x y with
          | none => none
          | some acc1 => some (wardCountLine acc1 unitname x y)
        | _, _ => none
    | _, _ => none
  | _ => none

/-- `_process_ward_and_location_data`. -/
def _process_ward_and_location_data (minimap_data : JVal) : Option String :=
  if !truthy minimap_data then some ""
  else
    match minimap_data with
    | .obj o => do
      let fin ← (o.toList).foldlM (fun acc kv => wardStep acc kv.2)
        ⟨[], 0, 0⟩
      let lines :=
        if fin.observers > 0 || fin.sentries > 0 then
          ("Ward Summary: Observer(" ++ toString fin.observers ++
           "), Sentry(" ++ toString fin.sentries ++ ")") :: fin.lines
        else fin.lines
      pure (joinSep "\n" lines)
    | _ => none

/-- The hero-name extraction at the top of `convert_game_state_to_text`
(runs before the `try`, so a raise here escapes the function: `none`). -/
def heroNameOf (gs : List (String × JVal)) : Option String :=
  match (alookup gs "hero").getD (.obj .nil) with
  | .obj h =>
    match jGetD h "name" (.str "Unknown Hero") with
    | .str s => some (pyReplace s "npc_dota_hero_" "")
    | _ => none
  | _ => none

/-- The eight sections of the render, in source order, inside the single
`try`; the first raise aborts them all. -/
def renderSections (gs : List (String × JVal)) : Option (List String) := do
  let hero := (alookup gs "hero").getD (.obj .nil)
  let s1 ← _process_map_data ((alookup gs "map").getD (.obj .nil))
  let s2 ← _process_buildings_data ((alookup gs "buildings").getD (.obj .nil))
  let s3 ← _process_player_data ((alookup gs "player").getD (.obj .nil))
  let s4 ← _process_items_data ((alookup gs "items").getD (.obj .nil))
  let s5 ← _process_hero_data hero
  let s6 ← _process_abilities_data ((alookup gs "abilities").getD (.obj .nil))
    hero
  let s7 ← _process_ward_and_location_data
    ((alookup gs "minimap").getD (.obj .nil))
  let s8 ← _process_hero_lists_data ((alookup gs "allies").getD (.arr .nil))
    ((alookup gs "enemies").getD (.arr .nil))
  pure [s1, s2, s3, s4, s5, s6, s7, s8]

/-- `convert_game_state_to_text(game_state)`.  Returns `none` only when the
pre-`try` hero-name extraction raises; otherwise `(text, hero_name)`, where
an exception inside the `try` yields the fixed error text and any section
raising suppresses every section. -/
def convert_game_state_to_text (gs : List (String × JVal)) :
    Option (String × String) :=
  if gs.isEmpty || gs.all (fun p => !truthy p.2) then
    some ("No game state available.", "Unknown Hero")
  else do
    let hero_name ← heroNameOf gs
    match renderSections gs with
    | none => some ("Error processing game state.", hero_name)
    | some sections =>
      let lines := sections.filter (fun l => l ≠ "")
      let body := if lines.isEmpty then "No valid game state data available."
                  else joinSep "\n" lines
      some ("=== DOTA 2 GAME STATE ===\n" ++ body, hero_name)

/-!  ### Spec-side definitions

These follow the specification's words (not the source) and exist to be
compared with the embedded code. -/

/-- The value the last writer left at `state[c][k]`: the rightmost binding
of `k` inside category `c` of the latest payload that carries it. -/
def lastLookup (o : List (String × JVal)) (k : String) : Option JVal :=
  alookup o.reverse k

/-- What a single partial payload says about `state[c][k]` (nothing when the
category or the key is absent from it). -/
def payloadField (p : Payload) (c k : String) : Option JVal :=
  match alookup p c with
  | some o => lastLookup o k
  | none => none

/-- Modelled from the spec: the category-wise last-writer-wins merge of a
payload sequence, read at `state[c][k]` — the latest payload writing that
key wins. -/
def lwwLookup (ps : List Payload) (c k : String) : Option JVal :=
  ps.foldl (fun acc p => oElse (payloadField p c k) acc) none

/-- Modelled from the spec: the compass rule as the claim words it —
east when `|dx| > |dy|` and `dx > 0`, west when `|dx| > |dy|` and `dx ≤ 0`,
north when `|dx| ≤ |dy|` and `dy > 0`, else south. -/
def specDirection (dx dy : Int) : String :=
  if dx.natAbs > dy.natAbs ∧ dx > 0 then "east of"
  else if dx.natAbs > dy.natAbs ∧ dx ≤ 0 then "west of"
  else if dx.natAbs ≤ dy.natAbs ∧ dy > 0 then "north of"
  else "south of"

/-- Modelled from the spec: the building health percentage the claim
states, `round(health / max(max_health, 1) * 100)`. -/
def specBuildingPercent (h m : Int) : Int :=
  round ((h : ℚ) / (max (m : ℚ) 1) * 100)

/-!  ### Well-formedness

The hypotheses under which the state-machine claims are stated: payloads
shaped as the endpoint produces them (nine known dict categories, minimap
entries shaped as the spec's `MinimapEntry`), and manager states whose
categories are dicts and whose hero lists are string lists — exactly the
states the model's own operations produce. -/

/-- A minimap entry the hero extractor scans without raising: a dict whose
truthy `name` is a string and whose `image` (when `name` is truthy) is a
string. -/
def wfEntry (v : JVal) : Bool :=
  match v with
  | .obj fields =>
    let nameV := (jlookup fields "name").getD .null
    if truthy nameV then
      match nameV with
      | .str _ =>
        match (jlookup fields "image").getD (.str "") with
        | .str _ => true
        | _ => false
      | _ => false
    else true
  | _ => false

/-- The category names of a payload. -/
def payloadKeys (p : Payload) : List String := p.map Prod.fst

/-- An endpoint-shaped payload: known categories only, no duplicate
category, spec-shaped minimap entries. -/
def WFPayload (p : Payload) : Bool :=
  (payloadKeys p).all (fun c => decide (c ∈ knownCategories)) &&
  decide (payloadKeys p).Nodup &&
  (minimapOf p).all (fun e => wfEntry e.2)

/-- One well-formed stored binding: known categories hold dicts, the hero
keys hold string lists. -/
def wfSVal (c : String) (v : SVal) : Bool :=
  (if c ∈ knownCategories then (v matches .obj _) else true) &&
  (if c = "allies" ∨ c = "enemies" then (v matches .strs _) else true)

/-- A well-formed manager state. -/
def WFState (st : List (String × SVal)) : Bool :=
  st.all (fun p => wfSVal p.1 p.2)

/-- Manager states reachable from a fresh process through endpoint-shaped
updates. -/
inductive Reachable : StateManager → Prop
  | init : Reachable initManager
  | step (mgr : StateManager) (p : Payload) : Reachable mgr →
      WFPayload p = true → Reachable (update_state mgr p)

/-!  ### Association-list lemmas -/

theorem oElse_none_left {α : Type} (b : Option α) : oElse none b = b := rfl

theorem oElse_none_right {α : Type} (a : Option α) : oElse a none = a := by
  cases a <;> rfl

theorem oElse_assoc {α : Type} (a b c : Option α) :
    oElse (oElse a b) c = oElse a (oElse b c) := by
  cases a <;> rfl

theorem alookup_append {α : Type} (a b : List (String × α)) (k : String) :
    alookup (a ++ b) k = oElse (alookup a k) (alookup b k) := by
  induction a with
  | nil => rfl
  | cons hd tl ih =>
    obtain ⟨k1, v1⟩ := hd
    by_cases h : k1 = k <;> simp [alookup, h, ih, oElse]

theorem alookup_mapSet_self {α : Type} (tl : List (String × α)) (k : String)
    (v : α) :
    alookup (tl.map (fun p => if p.1 = k then (k, v) else p)) k =
      if (alookup tl k).isSome then some v else none := by
  induction tl with
  | nil => simp [alookup]
  | cons hd tl ih =>
    obtain ⟨k1, v1⟩ := hd
    by_cases h1 : k1 = k
    · have hf : (fun (p : String × α) => if p.1 = k then (k, v) else p) (k1, v1)
          = (k, v) := by simp [h1]
      simp only [List.map_cons, hf]
      simp [alookup, h1]
    · have hf : (fun (p : String × α) => if p.1 = k then (k, v) else p) (k1, v1)
          = (k1, v1) := by simp [h1]
      simp only [List.map_cons, hf]
      simp [alookup, h1, ih]

theorem alookup_mapSet_ne {α : Type} (tl : List (String × α)) (k k' : String)
    (v : α) (h : k' ≠ k) :
    alookup (tl.map (fun p => if p.1 = k then (k, v) else p)) k' =
      alookup tl k' := by
  induction tl with
  | nil => rfl
  | cons hd tl ih =>
    obtain ⟨k1, v1⟩ := hd
    by_cases h1 : k1 = k
    · have hf : (fun (p : String × α) => if p.1 = k then (k, v) else p) (k1, v1)
          = (k, v) := by simp [h1]
      simp only [List.map_cons, hf]
      subst h1
      simp [alookup, Ne.symm h, ih]
    · have hf : (fun (p : String × α) => if p.1 = k then (k, v) else p) (k1, v1)
          = (k1, v1) := by simp [h1]
      simp only [List.map_cons, hf]
      by_cases h2 : k1 = k' <;> simp [alookup, h2, ih]

theorem alookup_setKey_self {α : Type} (st : List (String × α)) (k : String)
    (v : α) : alookup (setKey st k v) k = some v := by
  unfold setKey
  split
  · rename_i hsome
    rw [alookup_mapSet_self, if_pos hsome]
  · rename_i hnone
    rw [alookup_append]
    cases hx : alookup st k with
    | none => simp [alookup, oElse]
    | some w => rw [hx] at hnone; simp at hnone

theorem alookup_setKey_ne {α : Type} (st : List (String × α)) (k k' : String)
    (v : α) (h : k' ≠ k) : alookup (setKey st k v) k' = alookup st k' := by
  unfold setKey
  split
  · exact alookup_mapSet_ne st k k' v h
  · rw [alookup_append]
    simp [alookup, Ne.symm h, oElse_none_right]

theorem alookup_setKey {α : Type} (st : List (String × α)) (k k' : String)
    (v : α) :
    alookup (setKey st k v) k' = if k' = k then some v else alookup st k' := by
  by_cases h : k' = k
  · subst h; simp [alookup_setKey_self]
  · simp [h, alookup_setKey_ne st k k' v h]

theorem alookup_isSome_setKey {α : Type} (st : List (String × α))
    (k k' : String) (v : α) (h : (alookup st k').isSome) :
    (alookup (setKey st k v) k').isSome := by
  by_cases hk : k' = k
  · subst hk; simp [alookup_setKey_self]
  · rwa [alookup_setKey_ne st k k' v hk]

theorem alookup_objUpdate (b d : List (String × JVal)) (k : String) :
    alookup (objUpdate b d) k = oElse (lastLookup d k) (alookup b k) := by
  induction d generalizing b with
  | nil => simp [objUpdate, lastLookup, alookup, oElse]
  | cons hd tl ih =>
    obtain ⟨k1, v1⟩ := hd
    have step : objUpdate b ((k1, v1) :: tl) = objUpdate (setKey b k1 v1) tl := by
      simp [objUpdate]
    rw [step, ih]
    unfold lastLookup
    simp only [List.reverse_cons, alookup_append]
    rw [alookup_setKey]
    by_cases h : k = k1
    · subst h
      cases hx : alookup tl.reverse k <;> simp [oElse, alookup, hx]
    · cases hx : alookup tl.reverse k <;>
        simp [oElse, alookup, h, Ne.symm h, hx]

/-!  ### Well-formedness lemmas -/

theorem allies_not_known : "allies" ∉ knownCategories := by decide

theorem enemies_not_known : "enemies" ∉ knownCategories := by decide

theorem wfSVal_obj_of_known {c : String} (hc : c ∈ knownCategories)
    (o : List (String × JVal)) : wfSVal c (.obj o) = true := by
  have h1 : ¬(c = "allies" ∨ c = "enemies") := by
    rintro (rfl | rfl)
    · exact allies_not_known hc
    · exact enemies_not_known hc
  unfold wfSVal
  rw [if_pos hc, if_neg h1]
  rfl

theorem wfSVal_strs_allies (l : List String) :
    wfSVal "allies" (.strs l) = true := by
  unfold wfSVal
  rw [if_neg allies_not_known, if_pos (Or.inl rfl)]
  rfl

theorem wfSVal_strs_enemies (l : List String) :
    wfSVal "enemies" (.strs l) = true := by
  unfold wfSVal
  rw [if_neg enemies_not_known, if_pos (Or.inr rfl)]
  rfl

theorem wfState_of_lookup {st : List (String × SVal)}
    (hwf : WFState st = true) {c : String} {v : SVal}
    (h : alookup st c = some v) : wfSVal c v = true := by
  induction st with
  | nil => simp [alookup] at h
  | cons hd tl ih =>
    obtain ⟨k1, v1⟩ := hd
    simp only [WFState, List.all_cons, Bool.and_eq_true] at hwf
    by_cases h1 : k1 = c
    · subst h1
      simp [alookup] at h
      subst h
      exact hwf.1
    · simp [alookup, h1] at h
      exact ih hwf.2 h

theorem wf_known_obj {st : List (String × SVal)} (hwf : WFState st = true)
    {c : String} (hc : c ∈ knownCategories) {v : SVal}
    (h : alookup st c = some v) : ∃ o, v = SVal.obj o := by
  have hv := wfState_of_lookup hwf h
  unfold wfSVal at hv
  rw [if_pos hc] at hv
  cases v with
  | obj o => exact ⟨o, rfl⟩
  | strs l => simp at hv

theorem wf_allies_strs {st : List (String × SVal)} (hwf : WFState st = true)
    {v : SVal} (h : alookup st "allies" = some v) : ∃ l, v = SVal.strs l := by
  have hv := wfState_of_lookup hwf h
  unfold wfSVal at hv
  rw [if_neg allies_not_known, if_pos (Or.inl rfl)] at hv
  cases v with
  | obj o => simp at hv
  | strs l => exact ⟨l, rfl⟩

theorem wf_enemies_strs {st : List (String × SVal)} (hwf : WFState st = true)
    {v : SVal} (h : alookup st "enemies" = some v) : ∃ l, v = SVal.strs l := by
  have hv := wfState_of_lookup hwf h
  unfold wfSVal at hv
  rw [if_neg enemies_not_known, if_pos (Or.inr rfl)] at hv
  cases v with
  | obj o => simp at hv
  | strs l => exact ⟨l, rfl⟩

theorem wfState_setKey {st : List (String × SVal)} (hwf : WFState st = true)
    {c : String} {v : SVal} (hv : wfSVal c v = true) :
    WFState (setKey st c v) = true := by
  simp only [WFState, List.all_eq_true] at hwf ⊢
  intro p hp
  unfold setKey at hp
  split at hp
  · obtain ⟨q, hq, hquv⟩ := List.mem_map.mp hp
    by_cases h1 : q.1 = c
    · rw [if_pos h1] at hquv
      subst hquv
      exact hv
    · rw [if_neg h1] at hquv
      subst hquv
      exact hwf q hq
  · rcases List.mem_append.mp hp with h1 | h1
    · exact hwf p h1
    · simp at h1
      subst h1
      exact hv

/-- Unpack `WFPayload`. -/
theorem wfPayload_parts {p : Payload} (hp : WFPayload p = true) :
    (∀ c ∈ payloadKeys p, c ∈ knownCategories) ∧ (payloadKeys p).Nodup ∧
    (∀ e ∈ minimapOf p, wfEntry e.2 = true) := by
  simp only [WFPayload, Bool.and_eq_true, List.all_eq_true,
    decide_eq_true_eq] at hp
  exact ⟨hp.1.1, hp.1.2, hp.2⟩

/-!  ### Merge-loop lemmas -/

theorem mergeCats_lookup_not_mem (st : List (String × SVal)) (p : Payload)
    {c : String} (hc : c ∉ payloadKeys p) :
    alookup (mergeCats st p).1 c = alookup st c := by
  induction p generalizing st with
  | nil => rfl
  | cons hd tl ih =>
    obtain ⟨c1, d⟩ := hd
    have hne : c ≠ c1 := by
      intro h
      exact hc (by simp [payloadKeys, h])
    have htl : c ∉ payloadKeys tl := by
      intro h
      exact hc (by simp [payloadKeys] at h ⊢; right; exact h)
    cases hx : alookup st c1 with
    | none =>
      simp only [mergeCats, hx]
      rw [ih _ htl, alookup_setKey_ne _ _ _ _ hne]
    | some v =>
      cases v with
      | strs l => simp only [mergeCats, hx]
      | obj o =>
        simp only [mergeCats, hx]
        rw [ih _ htl, alookup_setKey_ne _ _ _ _ hne]

theorem mergeCats_isSome (st : List (String × SVal)) (p : Payload)
    {c : String} (h : (alookup st c).isSome) :
    (alookup (mergeCats st p).1 c).isSome := by
  induction p generalizing st with
  | nil => exact h
  | cons hd tl ih =>
    obtain ⟨c1, d⟩ := hd
    cases hx : alookup st c1 with
    | none =>
      simp only [mergeCats, hx]
      exact ih _ (alookup_isSome_setKey _ _ _ _ h)
    | some v =>
      cases v with
      | strs l => simpa only [mergeCats, hx]
      | obj o =>
        simp only [mergeCats, hx]
        exact ih _ (alookup_isSome_setKey _ _ _ _ h)

theorem mergeCats_wf {st : List (String × SVal)} {p : Payload}
    (hwf : WFState st = true)
    (hkeys : ∀ c ∈ payloadKeys p, c ∈ knownCategories) :
    WFState (mergeCats st p).1 = true := by
  induction p generalizing st with
  | nil => exact hwf
  | cons hd tl ih =>
    obtain ⟨c1, d⟩ := hd
    have hc1 : c1 ∈ knownCategories := hkeys c1 (by simp [payloadKeys])
    have htl : ∀ c ∈ payloadKeys tl, c ∈ knownCategories := by
      intro c hcm
      exact hkeys c (by simp [payloadKeys] at hcm ⊢; right; exact hcm)
    cases hx : alookup st c1 with
    | none =>
      simp only [mergeCats, hx]
      exact ih (wfState_setKey hwf (wfSVal_obj_of_known hc1 _)) htl
    | some v =>
      rcases wf_known_obj hwf hc1 hx with ⟨o, rfl⟩
      simp only [mergeCats, hx]
      exact ih (wfState_setKey hwf (wfSVal_obj_of_known hc1 _)) htl

theorem mergeCats_mem_isSome {st : List (String × SVal)} {p : Payload}
    (hwf : WFState st = true)
    (hkeys : ∀ c ∈ payloadKeys p, c ∈ knownCategories)
    {c : String} (hc : c ∈ payloadKeys p) :
    (alookup (mergeCats st p).1 c).isSome := by
  induction p generalizing st with
  | nil => simp [payloadKeys] at hc
  | cons hd tl ih =>
    obtain ⟨c1, d⟩ := hd
    have hc1 : c1 ∈ knownCategories := hkeys c1 (by simp [payloadKeys])
    have htl : ∀ c ∈ payloadKeys tl, c ∈ knownCategories := by
      intro c hcm
      exact hkeys c (by simp [payloadKeys] at hcm ⊢; right; exact hcm)
    by_cases hcc : c = c1
    · subst hcc
      cases hx : alookup st c with
      | none =>
        simp only [mergeCats, hx]
        exact mergeCats_isSome _ _ (by simp [alookup_setKey_self])
      | some v =>
        rcases wf_known_obj hwf hc1 hx with ⟨o, rfl⟩
        simp only [mergeCats, hx]
        exact mergeCats_isSome _ _ (by simp [alookup_setKey_self])
    · have hctl : c ∈ payloadKeys tl := by
        simp [payloadKeys] at hc ⊢
        rcases hc with h | h
        · exact absurd h hcc
        · exact h
      cases hx : alookup st c1 with
      | none =>
        simp only [mergeCats, hx]
        exact ih (wfState_setKey hwf (wfSVal_obj_of_known hc1 _)) htl hctl
      | some v =>
        rcases wf_known_obj hwf hc1 hx with ⟨o, rfl⟩
        simp only [mergeCats, hx]
        exact ih (wfState_setKey hwf (wfSVal_obj_of_known hc1 _)) htl hctl

theorem fieldLookup_setKey_ne (st : List (String × SVal)) {c c1 : String}
    (v : SVal) (k : String) (h : c ≠ c1) :
    fieldLookup (setKey st c1 v) c k = fieldLookup st c k := by
  unfold fieldLookup
  rw [alookup_setKey_ne _ _ _ _ h]

theorem payloadField_cons_self (c1 : String) (d : List (String × JVal))
    (tl : Payload) (k : String) :
    payloadField ((c1, d) :: tl) c1 k = lastLookup d k := by
  simp [payloadField, alookup]

theorem payloadField_cons_ne {c c1 : String} (d : List (String × JVal))
    (tl : Payload) (k : String) (h : c ≠ c1) :
    payloadField ((c1, d) :: tl) c k = payloadField tl c k := by
  simp [payloadField, alookup, Ne.symm h]

theorem mergeCats_field {st : List (String × SVal)} {p : Payload}
    (hwf : WFState st = true)
    (hkeys : ∀ c ∈ payloadKeys p, c ∈ knownCategories)
    (hnodup : (payloadKeys p).Nodup)
    {c : String} (hc : c ∈ knownCategories) (k : String) :
    fieldLookup (mergeCats st p).1 c k =
      oElse (payloadField p c k) (fieldLookup st c k) := by
  induction p generalizing st with
  | nil => simp [mergeCats, payloadField, alookup, oElse]
  | cons hd tl ih =>
    obtain ⟨c1, d⟩ := hd
    have hc1 : c1 ∈ knownCategories := hkeys c1 (by simp [payloadKeys])
    have htl : ∀ c ∈ payloadKeys tl, c ∈ knownCategories := by
      intro c hcm
      exact hkeys c (by simp [payloadKeys] at hcm ⊢; right; exact hcm)
    have hkc : payloadKeys ((c1, d) :: tl) = c1 :: payloadKeys tl := by
      simp [payloadKeys]
    rw [hkc] at hnodup
    have hnotin : c1 ∉ payloadKeys tl := (List.nodup_cons.mp hnodup).1
    have hnd : (payloadKeys tl).Nodup := (List.nodup_cons.mp hnodup).2
    by_cases hcc : c = c1
    · subst hcc
      cases hx : alookup st c with
      | none =>
        simp only [mergeCats, hx]
        have h1 : alookup (mergeCats (setKey st c
            (SVal.obj (objUpdate [] d))) tl).1 c =
            alookup (setKey st c (SVal.obj (objUpdate [] d))) c :=
          mergeCats_lookup_not_mem _ _ hnotin
        unfold fieldLookup
        rw [h1, alookup_setKey_self]
        show alookup (objUpdate [] d) k = _
        rw [alookup_objUpdate, payloadField_cons_self, hx]
        rfl
      | some v =>
        rcases wf_known_obj hwf hc1 hx with ⟨o, rfl⟩
        simp only [mergeCats, hx]
        have h1 : alookup (mergeCats (setKey st c
            (SVal.obj (objUpdate o d))) tl).1 c =
            alookup (setKey st c (SVal.obj (objUpdate o d))) c :=
          mergeCats_lookup_not_mem _ _ hnotin
        unfold fieldLookup
        rw [h1, alookup_setKey_self]
        show alookup (objUpdate o d) k = _
        rw [alookup_objUpdate, payloadField_cons_self, hx]
    · rw [payloadField_cons_ne _ _ _ hcc]
      cases hx : alookup st c1 with
      | none =>
        simp only [mergeCats, hx]
        rw [ih (wfState_setKey hwf (wfSVal_obj_of_known hc1 _)) htl hnd,
          fieldLookup_setKey_ne _ _ _ hcc]
      | some v =>
        rcases wf_known_obj hwf hc1 hx with ⟨o, rfl⟩
        simp only [mergeCats, hx]
        rw [ih (wfState_setKey hwf (wfSVal_obj_of_known hc1 _)) htl hnd,
          fieldLookup_setKey_ne _ _ _ hcc]

/-!  ### Hero-extractor lemmas -/

theorem entryStep_ok {v : JVal} (hv : wfEntry v = true) (al en : List String) :
    (entryStep al en v).isSome := by
  cases v with
  | obj fields =>
    cases htr : truthy ((jlookup fields "name").getD JVal.null) with
    | false => simp [entryStep, htr]
    | true =>
      simp only [wfEntry, htr, if_pos] at hv
      cases hname : (jlookup fields "name").getD JVal.null with
      | str s =>
        rw [hname] at hv
        simp only [entryStep, hname, htr, if_pos]
        cases himg : (jlookup fields "image").getD (JVal.str "") with
        | str img =>
          have htr2 : truthy (JVal.str s) = true := by rw [← hname]; exact htr
          simp only [htr2, if_pos]
          split
          · simp
          · split <;> simp
        | null => rw [himg] at hv; simp at hv
        | bool b => rw [himg] at hv; simp at hv
        | int n => rw [himg] at hv; simp at hv
        | obj o => rw [himg] at hv; simp at hv
        | arr a => rw [himg] at hv; simp at hv
      | null => rw [hname] at htr; simp [truthy] at htr
      | bool b => rw [hname] at hv; simp at hv
      | int n => rw [hname] at hv; simp at hv
      | obj o => rw [hname] at hv; simp at hv
      | arr a => rw [hname] at hv; simp at hv
  | null => simp [wfEntry] at hv
  | bool b => simp [wfEntry] at hv
  | int n => simp [wfEntry] at hv
  | str s => simp [wfEntry] at hv
  | arr a => simp [wfEntry] at hv

theorem extractLoop_ok {mm : List (String × JVal)}
    (hwf : ∀ e ∈ mm, wfEntry e.2 = true) (al en : List String) :
    (extractLoop mm al en).2.2 = true := by
  induction mm generalizing al en with
  | nil => rfl
  | cons hd tl ih =>
    obtain ⟨key, v⟩ := hd
    have hv : wfEntry v = true := hwf (key, v) (by simp)
    have htl : ∀ e ∈ tl, wfEntry e.2 = true := fun e he => hwf e (by simp [he])
    unfold extractLoop
    cases hstep : entryStep al en v with
    | none =>
      have := entryStep_ok hv al en
      rw [hstep] at this
      simp at this
    | some r => exact ih htl r.1 r.2

/-!  ### `extract_hero_lists` characterization -/

theorem ensureKey_lookup_ne (st : List (String × SVal)) {c k : String}
    (h : c ≠ k) : alookup (ensureKey st k) c = alookup st c := by
  unfold ensureKey
  split
  · rfl
  · rw [alookup_setKey_ne _ _ _ _ h]

theorem ensureKey_lookup_self (st : List (String × SVal)) (k : String) :
    alookup (ensureKey st k) k =
      oElse (alookup st k) (some (SVal.strs [])) := by
  unfold ensureKey
  split
  · rename_i h
    cases hx : alookup st k with
    | none => rw [hx] at h; simp at h
    | some v => rfl
  · rename_i h
    cases hx : alookup st k with
    | none => rw [alookup_setKey_self]; rfl
    | some v => rw [hx] at h; simp at h

theorem ensureKey_isSome (st : List (String × SVal)) (k : String) {c : String}
    (h : (alookup st c).isSome) : (alookup (ensureKey st k) c).isSome := by
  unfold ensureKey
  split
  · exact h
  · exact alookup_isSome_setKey _ _ _ _ h

theorem ensureKey_wf {st : List (String × SVal)} (hwf : WFState st = true)
    {k : String} (hk : wfSVal k (SVal.strs []) = true) :
    WFState (ensureKey st k) = true := by
  unfold ensureKey
  split
  · exact hwf
  · exact wfState_setKey hwf hk

theorem ensure_lookup_other (st : List (String × SVal)) {c : String}
    (h1 : c ≠ "allies") (h2 : c ≠ "enemies") :
    alookup (ensureHeroKeys st) c = alookup st c := by
  unfold ensureHeroKeys
  rw [ensureKey_lookup_ne _ h2, ensureKey_lookup_ne _ h1]

theorem ensure_isSome (st : List (String × SVal)) {c : String}
    (h : (alookup st c).isSome) : (alookup (ensureHeroKeys st) c).isSome := by
  unfold ensureHeroKeys
  exact ensureKey_isSome _ _ (ensureKey_isSome _ _ h)

theorem ensure_wf {st : List (String × SVal)} (hwf : WFState st = true) :
    WFState (ensureHeroKeys st) = true := by
  unfold ensureHeroKeys
  exact ensureKey_wf (ensureKey_wf hwf (wfSVal_strs_allies []))
    (wfSVal_strs_enemies [])

theorem ensure_allies (st : List (String × SVal))
    (ha : alookup st "allies" = none ∨
          alookup st "allies" = some (SVal.strs (alliesOf st))) :
    alookup (ensureHeroKeys st) "allies" = some (SVal.strs (alliesOf st)) := by
  unfold ensureHeroKeys
  rw [ensureKey_lookup_ne _ (by decide : ("allies" : String) ≠ "enemies"),
    ensureKey_lookup_self]
  rcases ha with ha | ha
  · have hA : alliesOf st = [] := by simp [alliesOf, ha]
    rw [ha, hA]
    rfl
  · rw [ha]
    rfl

theorem ensure_enemies (st : List (String × SVal))
    (he : alookup st "enemies" = none ∨
          alookup st "enemies" = some (SVal.strs (enemiesOf st))) :
    alookup (ensureHeroKeys st) "enemies" = some (SVal.strs (enemiesOf st)) := by
  unfold ensureHeroKeys
  rw [ensureKey_lookup_self, ensureKey_lookup_ne _
    (by decide : ("enemies" : String) ≠ "allies")]
  rcases he with he | he
  · have hE : enemiesOf st = [] := by simp [enemiesOf, he]
    rw [he, hE]
    rfl
  · rw [he]
    rfl

theorem extract_char (p : Payload) (mgr : StateManager)
    (ha : alookup mgr.state "allies" = none ∨
          alookup mgr.state "allies" = some (SVal.strs (alliesOf mgr.state)))
    (he : alookup mgr.state "enemies" = none ∨
          alookup mgr.state "enemies" = some (SVal.strs (enemiesOf mgr.state)))
    (hok : (extractLoop (minimapOf p) (alliesOf mgr.state)
        (enemiesOf mgr.state)).2.2 = true) :
    extract_hero_lists p mgr =
      ({ state := setKey (setKey (ensureHeroKeys mgr.state) "allies"
            (SVal.strs (extractLoop (minimapOf p) (alliesOf mgr.state)
              (enemiesOf mgr.state)).1))
          "enemies" (SVal.strs (extractLoop (minimapOf p)
            (alliesOf mgr.state) (enemiesOf mgr.state)).2.1),
         current_match_id := mgr.current_match_id,
         heroes_tracked :=
           if (extractLoop (minimapOf p) (alliesOf mgr.state)
                (enemiesOf mgr.state)).1.length +
              (extractLoop (minimapOf p) (alliesOf mgr.state)
                (enemiesOf mgr.state)).2.1.length = 10 then true
           else mgr.heroes_tracked }, true) := by
  simp only [extract_hero_lists]
  rw [ensure_allies _ ha, ensure_enemies _ he]
  simp only [hok, if_pos]

/-!  ### `update_state` characterization -/

theorem wf_ha {st : List (String × SVal)} (hwf : WFState st = true) :
    alookup st "allies" = none ∨
    alookup st "allies" = some (SVal.strs (alliesOf st)) := by
  cases hx : alookup st "allies" with
  | none => exact Or.inl rfl
  | some v =>
    rcases wf_allies_strs hwf hx with ⟨l, rfl⟩
    right
    simp [alliesOf, hx]

theorem wf_he {st : List (String × SVal)} (hwf : WFState st = true) :
    alookup st "enemies" = none ∨
    alookup st "enemies" = some (SVal.strs (enemiesOf st)) := by
  cases hx : alookup st "enemies" with
  | none => exact Or.inl rfl
  | some v =>
    rcases wf_enemies_strs hwf hx with ⟨l, rfl⟩
    right
    simp [enemiesOf, hx]

theorem resetStage_id (mgr : StateManager) (p : Payload) :
    (resetStage mgr p).current_match_id = getMatchId p := by
  unfold resetStage
  split
  · rfl
  · rename_i h
    simp at h
    rw [h]

theorem resetStage_wf {mgr : StateManager} (hwf : WFState mgr.state = true)
    (p : Payload) : WFState (resetStage mgr p).state = true := by
  unfold resetStage
  split
  · exact wfState_setKey (wfState_setKey hwf (wfSVal_strs_allies []))
      (wfSVal_strs_enemies [])
  · exact hwf

theorem resetStage_lookup_other (mgr : StateManager) (p : Payload)
    {c : String} (h1 : c ≠ "allies") (h2 : c ≠ "enemies") :
    alookup (resetStage mgr p).state c = alookup mgr.state c := by
  unfold resetStage
  split
  · show alookup (setKey (setKey mgr.state "allies" (SVal.strs []))
      "enemies" (SVal.strs [])) c = _
    rw [alookup_setKey_ne _ _ _ _ h2, alookup_setKey_ne _ _ _ _ h1]
  · rfl

theorem resetStage_isSome (mgr : StateManager) (p : Payload) {c : String}
    (h : (alookup mgr.state c).isSome) :
    (alookup (resetStage mgr p).state c).isSome := by
  unfold resetStage
  split
  · exact alookup_isSome_setKey _ _ _ _ (alookup_isSome_setKey _ _ _ _ h)
  · exact h

theorem fieldLookup_congr {st st' : List (String × SVal)} {c : String}
    (h : alookup st c = alookup st' c) (k : String) :
    fieldLookup st c k = fieldLookup st' c k := by
  unfold fieldLookup
  rw [h]

theorem known_ne_allies {c : String} (hc : c ∈ knownCategories) :
    c ≠ "allies" := fun h => allies_not_known (h ▸ hc)

theorem known_ne_enemies {c : String} (hc : c ∈ knownCategories) :
    c ≠ "enemies" := fun h => enemies_not_known (h ▸ hc)

theorem update_state_def (mgr : StateManager) (p : Payload) :
    update_state mgr p =
      (if (resetStage mgr p).heroes_tracked then
        { resetStage mgr p with
          state := (mergeCats (resetStage mgr p).state p).1 }
      else
        match extract_hero_lists p (resetStage mgr p) with
        | (mgr2, true) => { mgr2 with state := (mergeCats mgr2.state p).1 }
        | (mgr2, false) => mgr2) := rfl

theorem update_core {mgr : StateManager} {p : Payload}
    (hwf : WFState mgr.state = true) (hp : WFPayload p = true) :
    WFState (update_state mgr p).state = true ∧
    (∀ c ∈ knownCategories, ∀ k, fieldLookup (update_state mgr p).state c k =
      oElse (payloadField p c k) (fieldLookup mgr.state c k)) ∧
    (∀ c, (alookup mgr.state c).isSome →
      (alookup (update_state mgr p).state c).isSome) ∧
    ("map" ∈ payloadKeys p →
      (alookup (update_state mgr p).state "map").isSome) := by
  obtain ⟨hkeys, hnodup, hmm⟩ := wfPayload_parts hp
  have hwf1 : WFState (resetStage mgr p).state = true := resetStage_wf hwf p
  rw [update_state_def]
  by_cases hft : (resetStage mgr p).heroes_tracked = true
  · rw [if_pos hft]
    refine ⟨mergeCats_wf hwf1 hkeys, ?_, ?_, ?_⟩
    · intro c hc k
      rw [mergeCats_field hwf1 hkeys hnodup hc k]
      have h1 : alookup (resetStage mgr p).state c = alookup mgr.state c :=
        resetStage_lookup_other mgr p (known_ne_allies hc) (known_ne_enemies hc)
      rw [fieldLookup_congr h1 k]
    · intro c h
      exact mergeCats_isSome _ _ (resetStage_isSome mgr p h)
    · intro hmap
      exact mergeCats_mem_isSome hwf1 hkeys hmap
  · rw [if_neg hft]
    have hok := extractLoop_ok hmm (alliesOf (resetStage mgr p).state)
      (enemiesOf (resetStage mgr p).state)
    rw [extract_char p (resetStage mgr p) (wf_ha hwf1) (wf_he hwf1) hok]
    have hwf2 : WFState (setKey (setKey (ensureHeroKeys
        (resetStage mgr p).state) "allies"
        (SVal.strs (extractLoop (minimapOf p)
          (alliesOf (resetStage mgr p).state)
          (enemiesOf (resetStage mgr p).state)).1)) "enemies"
        (SVal.strs (extractLoop (minimapOf p)
          (alliesOf (resetStage mgr p).state)
          (enemiesOf (resetStage mgr p).state)).2.1)) = true :=
      wfState_setKey (wfState_setKey (ensure_wf hwf1) (wfSVal_strs_allies _))
        (wfSVal_strs_enemies _)
    refine ⟨mergeCats_wf hwf2 hkeys, ?_, ?_, ?_⟩
    · intro c hc k
      rw [mergeCats_field hwf2 hkeys hnodup hc k]
      have h1 : alookup (setKey (setKey (ensureHeroKeys
          (resetStage mgr p).state) "allies"
          (SVal.strs (extractLoop (minimapOf p)
            (alliesOf (resetStage mgr p).state)
            (enemiesOf (resetStage mgr p).state)).1)) "enemies"
          (SVal.strs (extractLoop (minimapOf p)
            (alliesOf (resetStage mgr p).state)
            (enemiesOf (resetStage mgr p).state)).2.1)) c =
          alookup mgr.state c := by
        rw [alookup_setKey_ne _ _ _ _ (known_ne_enemies hc),
          alookup_setKey_ne _ _ _ _ (known_ne_allies hc),
          ensure_lookup_other _ (known_ne_allies hc) (known_ne_enemies hc),
          resetStage_lookup_other mgr p (known_ne_allies hc)
            (known_ne_enemies hc)]
      rw [fieldLookup_congr h1 k]
    · intro c h
      exact mergeCats_isSome _ _ (alookup_isSome_setKey _ _ _ _
        (alookup_isSome_setKey _ _ _ _
          (ensure_isSome _ (resetStage_isSome mgr p h))))
    · intro hmap
      exact mergeCats_mem_isSome hwf2 hkeys hmap

theorem lwwFold_from (ps : List Payload) (c k : String) (a : Option JVal) :
    ps.foldl (fun acc p => oElse (payloadField p c k) acc) a =
      oElse (lwwLookup ps c k) a := by
  induction ps generalizing a with
  | nil => simp [lwwLookup, oElse]
  | cons p tl ih =>
    show List.foldl _ (oElse (payloadField p c k) a) tl = _
    rw [ih]
    have h2 : lwwLookup (p :: tl) c k =
        oElse (lwwLookup tl c k) (payloadField p c k) := by
      show List.foldl _ (oElse (payloadField p c k) none) tl = _
      rw [ih, oElse_none_right]
    rw [h2, oElse_assoc]

theorem lwwLookup_cons (p : Payload) (tl : List Payload) (c k : String) :
    lwwLookup (p :: tl) c k =
      oElse (lwwLookup tl c k) (payloadField p c k) := by
  show List.foldl _ (oElse (payloadField p c k) none) tl = _
  rw [lwwFold_from, oElse_none_right]

theorem alookup_isSome_mem {α : Type} {l : List (String × α)} {c : String}
    (h : (alookup l c).isSome) : c ∈ l.map Prod.fst := by
  induction l with
  | nil => simp [alookup] at h
  | cons hd tl ih =>
    obtain ⟨k1, v1⟩ := hd
    by_cases h1 : k1 = c
    · simp [h1]
    · simp only [alookup, if_neg h1] at h
      simp [ih h]

theorem alookup_isSome_ne_nil {α : Type} {l : List (String × α)} {c : String}
    (h : (alookup l c).isSome) : l ≠ [] := by
  intro he
  subst he
  simp [alookup] at h

theorem getMatchId_map_mem {p : Payload} {m : JVal}
    (h : getMatchId p = some m) : "map" ∈ payloadKeys p := by
  unfold getMatchId at h
  cases hx : alookup p "map" with
  | none => rw [hx] at h; simp [alookup] at h
  | some o => exact alookup_isSome_mem (by simp [hx])

theorem applyUpdates_core (ps : List Payload) (mgr : StateManager)
    (hwf : WFState mgr.state = true)
    (hps : ∀ p ∈ ps, WFPayload p = true) :
    WFState (applyUpdates mgr ps).state = true ∧
    (∀ c ∈ knownCategories, ∀ k,
      fieldLookup (applyUpdates mgr ps).state c k =
        oElse (lwwLookup ps c k) (fieldLookup mgr.state c k)) ∧
    (∀ c, (alookup mgr.state c).isSome →
      (alookup (applyUpdates mgr ps).state c).isSome) := by
  induction ps generalizing mgr with
  | nil =>
    refine ⟨hwf, ?_, fun c h => h⟩
    intro c _ k
    show fieldLookup mgr.state c k =
      oElse (lwwLookup [] c k) (fieldLookup mgr.state c k)
    rfl
  | cons p tl ih =>
    have hp : WFPayload p = true := hps p (by simp)
    have htl : ∀ q ∈ tl, WFPayload q = true := fun q hq => hps q (by simp [hq])
    have hu := update_core hwf hp
    have happ : applyUpdates mgr (p :: tl) =
        applyUpdates (update_state mgr p) tl := rfl
    rw [happ]
    obtain ⟨ihwf, ihfield, ihpres⟩ := ih (update_state mgr p) hu.1 htl
    refine ⟨ihwf, ?_, ?_⟩
    · intro c hc k
      rw [ihfield c hc k, hu.2.1 c hc k, lwwLookup_cons, oElse_assoc]
    · intro c h
      exact ihpres c (hu.2.2.1 c h)

theorem applyOps_eq (mgr : StateManager) (ops : List (Option Payload)) :
    applyOps mgr ops = applyUpdates mgr (ops.filterMap id) := by
  induction ops generalizing mgr with
  | nil => rfl
  | cons hd tl ih =>
    cases hd with
    | none =>
      have h1 : applyOps mgr (none :: tl) = applyOps mgr tl := rfl
      have h2 : List.filterMap id (none :: tl) = List.filterMap id tl := by
        simp
      rw [h1, h2, ih mgr]
    | some p =>
      have h1 : applyOps mgr (some p :: tl) =
          applyOps (update_state mgr p) tl := rfl
      have h2 : List.filterMap id (some p :: tl) =
          p :: List.filterMap id tl := by simp
      rw [h1, h2, ih (update_state mgr p)]
      rfl

/-- C1: for every sequence of `UpdateState` calls whose payloads carry the
same `map.matchid`, `GetState` afterwards returns the stored state, and at
every known category and key that state is the category-wise last-writer-wins
shallow merge of the partial payloads over the initial state: the latest
payload carrying the key wins, keys no payload carries keep their initial
value, and categories no payload carries are unchanged; interleaving
`GetState` calls between the updates does not change the result (`get_state`
is read-only). -/
theorem c1_update_state_lww (mgr : StateManager) (ps : List Payload)
    (m : JVal) (hwf : WFState mgr.state = true)
    (hps : ∀ p ∈ ps, WFPayload p = true ∧ getMatchId p = some m)
    (hne : ps ≠ []) :
    get_state (applyUpdates mgr ps) = some (applyUpdates mgr ps).state ∧
    (∀ c ∈ knownCategories, ∀ k,
      fieldLookup (applyUpdates mgr ps).state c k =
        oElse (lwwLookup ps c k) (fieldLookup mgr.state c k)) ∧
    (∀ ops : List (Option Payload), ops.filterMap id = ps →
      applyOps mgr ops = applyUpdates mgr ps) := by
  have hcore := applyUpdates_core ps mgr hwf (fun p hp => (hps p hp).1)
  refine ⟨?_, hcore.2.1, ?_⟩
  · cases ps with
    | nil => exact absurd rfl hne
    | cons p tl =>
      have hp := hps p (by simp)
      have hu := update_core hwf hp.1
      have hmap : (alookup (update_state mgr p).state "map").isSome :=
        hu.2.2.2 (getMatchId_map_mem hp.2)
      have htl : ∀ q ∈ tl, WFPayload q = true :=
        fun q hq => (hps q (by simp [hq])).1
      have hfin := (applyUpdates_core tl (update_state mgr p) hu.1 htl).2.2
        "map" hmap
      have happ : applyUpdates mgr (p :: tl) =
          applyUpdates (update_state mgr p) tl := rfl
      rw [happ]
      unfold get_state
      rw [if_neg]
      rw [List.isEmpty_iff]
      exact alookup_isSome_ne_nil hfin
  · intro ops hops
    rw [applyOps_eq, hops]

/-- First payload of the C1 witness run. -/
def c1wp1 : Payload := [("map", [("matchid", .str "7"), ("game_time", .int 5)])]

/-- Second payload of the C1 witness run (overwrites `game_time`). -/
def c1wp2 : Payload :=
  [("map", [("matchid", .str "7"), ("game_time", .int 9)]),
   ("player", [("kills", .int 1)])]

/-- Witness for C1 at a concrete two-payload run. -/
theorem c1_update_state_lww_witness :
    get_state (applyUpdates initManager [c1wp1, c1wp2]) =
      some (applyUpdates initManager [c1wp1, c1wp2]).state ∧
    fieldLookup (applyUpdates initManager [c1wp1, c1wp2]).state
      "map" "game_time" = some (JVal.int 9) := by
  have h := c1_update_state_lww initManager [c1wp1, c1wp2] (JVal.str "7")
    (by decide)
    (by
      intro p hp
      simp only [List.mem_cons, List.not_mem_nil, or_false] at hp
      rcases hp with rfl | rfl
      · exact ⟨by decide, by decide⟩
      · exact ⟨by decide, by decide⟩)
    (by simp)
  refine ⟨h.1, ?_⟩
  have h2 := h.2.1 "map" (by decide) "game_time"
  rw [h2]
  decide

/-- One frozen step: with `heroes_tracked` already true and the same match
id, an update leaves the hero lists, the flag and the id untouched. -/
theorem update_frozen {mgr : StateManager} {p : Payload}
    (hft : mgr.heroes_tracked = true)
    (hmid : getMatchId p = mgr.current_match_id)
    (hkeys : ∀ c ∈ payloadKeys p, c ∈ knownCategories) :
    (update_state mgr p).heroes_tracked = true ∧
    (update_state mgr p).current_match_id = mgr.current_match_id ∧
    alookup (update_state mgr p).state "allies" =
      alookup mgr.state "allies" ∧
    alookup (update_state mgr p).state "enemies" =
      alookup mgr.state "enemies" := by
  have hreset : resetStage mgr p = mgr := by
    unfold resetStage
    rw [if_neg]
    simp [hmid]
  have hal : "allies" ∉ payloadKeys p :=
    fun h => allies_not_known (hkeys _ h)
  have hen : "enemies" ∉ payloadKeys p :=
    fun h => enemies_not_known (hkeys _ h)
  rw [update_state_def, hreset, if_pos hft]
  exact ⟨hft, rfl, mergeCats_lookup_not_mem _ _ hal,
    mergeCats_lookup_not_mem _ _ hen⟩

/-- C3: once `heroes_tracked` is true, any further sequence of updates that
carry the stored match id (and only known categories, as the endpoint
guarantees) leaves the stored `allies` and `enemies` entries and the flag
unchanged, whatever the minimap data is. -/
theorem c3_frozen_heroes (mgr : StateManager) (ps : List Payload)
    (hft : mgr.heroes_tracked = true)
    (hps : ∀ p ∈ ps, (∀ c ∈ payloadKeys p, c ∈ knownCategories) ∧
      getMatchId p = mgr.current_match_id) :
    (applyUpdates mgr ps).heroes_tracked = true ∧
    (applyUpdates mgr ps).current_match_id = mgr.current_match_id ∧
    alookup (applyUpdates mgr ps).state "allies" =
      alookup mgr.state "allies" ∧
    alookup (applyUpdates mgr ps).state "enemies" =
      alookup mgr.state "enemies" := by
  induction ps generalizing mgr with
  | nil => exact ⟨hft, rfl, rfl, rfl⟩
  | cons p tl ih =>
    have hp := hps p (by simp)
    have hstep := update_frozen hft hp.2 hp.1
    have htl : ∀ q ∈ tl, (∀ c ∈ payloadKeys q, c ∈ knownCategories) ∧
        getMatchId q = (update_state mgr p).current_match_id := by
      intro q hq
      refine ⟨(hps q (by simp [hq])).1, ?_⟩
      rw [hstep.2.1]
      exact (hps q (by simp [hq])).2
    obtain ⟨i1, i2, i3, i4⟩ := ih (update_state mgr p) hstep.1 htl
    have happ : applyUpdates mgr (p :: tl) =
        applyUpdates (update_state mgr p) tl := rfl
    rw [happ]
    exact ⟨i1, by rw [i2, hstep.2.1], by rw [i3, hstep.2.2.1],
      by rw [i4, hstep.2.2.2]⟩

/-- A manager in the middle of a fully tracked match (for the C3 witness). -/
def c3mgr : StateManager :=
  ⟨[("allies", .strs ["a", "b", "c", "d", "e"]),
    ("enemies", .strs ["f", "g", "h", "i", "j"])],
   some (.str "7"), true⟩

/-- A same-match payload carrying fresh minimap hero data (C3 witness). -/
def c3p : Payload :=
  [("map", [("matchid", .str "7")]),
   ("minimap", [("0", JVal.obj (JObj.ofList
      [("name", .str "npc_dota_hero_zeus"),
       ("image", .str "minimap_enemyicon")]))])]

/-- Witness for C3: the fresh minimap hero does not enter the frozen lists. -/
theorem c3_frozen_heroes_witness :
    (applyUpdates c3mgr [c3p]).heroes_tracked = true ∧
    alookup (applyUpdates c3mgr [c3p]).state "allies" =
      some (SVal.strs ["a", "b", "c", "d", "e"]) ∧
    alookup (applyUpdates c3mgr [c3p]).state "enemies" =
      some (SVal.strs ["f", "g", "h", "i", "j"]) := by
  have h := c3_frozen_heroes c3mgr [c3p] (by decide)
    (by
      intro p hp
      simp only [List.mem_cons, List.not_mem_nil, or_false] at hp
      subst hp
      exact ⟨by decide, by decide⟩)
  refine ⟨h.1, ?_, ?_⟩
  · rw [h.2.2.1]; decide
  · rw [h.2.2.2]; decide

/-- Characterization of an update whose match id differs from the stored
one: the hero lists and the flag after the call are computed from this
payload's minimap alone, starting from cleared lists, and the new id is
adopted. -/
theorem reset_update_char (mgr : StateManager) (p : Payload)
    (hdiff : getMatchId p ≠ mgr.current_match_id) (hp : WFPayload p = true) :
    (update_state mgr p).current_match_id = getMatchId p ∧
    alookup (update_state mgr p).state "allies" =
      some (SVal.strs (extractLoop (minimapOf p) [] []).1) ∧
    alookup (update_state mgr p).state "enemies" =
      some (SVal.strs (extractLoop (minimapOf p) [] []).2.1) ∧
    (update_state mgr p).heroes_tracked =
      (if (extractLoop (minimapOf p) [] []).1.length +
          (extractLoop (minimapOf p) [] []).2.1.length = 10 then true
       else false) := by
  obtain ⟨hkeys, _, hmm⟩ := wfPayload_parts hp
  have hal : "allies" ∉ payloadKeys p :=
    fun h => allies_not_known (hkeys _ h)
  have hen : "enemies" ∉ payloadKeys p :=
    fun h => enemies_not_known (hkeys _ h)
  have hreset : resetStage mgr p =
      { state := setKey (setKey mgr.state "allies" (SVal.strs []))
          "enemies" (SVal.strs []),
        current_match_id := getMatchId p, heroes_tracked := false } := by
    unfold resetStage
    rw [if_pos hdiff]
  have hla : alookup (resetStage mgr p).state "allies" =
      some (SVal.strs []) := by
    rw [hreset]
    show alookup (setKey (setKey mgr.state "allies" (SVal.strs []))
      "enemies" (SVal.strs [])) "allies" = _
    rw [alookup_setKey_ne _ _ _ _ (by decide : ("allies" : String) ≠ "enemies"),
      alookup_setKey_self]
  have hle : alookup (resetStage mgr p).state "enemies" =
      some (SVal.strs []) := by
    rw [hreset]
    show alookup (setKey (setKey mgr.state "allies" (SVal.strs []))
      "enemies" (SVal.strs [])) "enemies" = _
    rw [alookup_setKey_self]
  have hAol : alliesOf (resetStage mgr p).state = [] := by
    simp [alliesOf, hla]
  have hEol : enemiesOf (resetStage mgr p).state = [] := by
    simp [enemiesOf, hle]
  have hflag : (resetStage mgr p).heroes_tracked = false := by
    rw [hreset]
  have hok : (extractLoop (minimapOf p) (alliesOf (resetStage mgr p).state)
      (enemiesOf (resetStage mgr p).state)).2.2 = true :=
    extractLoop_ok hmm _ _
  have hchar := extract_char p (resetStage mgr p)
    (Or.inr (by rw [hla, hAol])) (Or.inr (by rw [hle, hEol])) hok
  rw [update_state_def, if_neg (by rw [hflag]; simp), hchar]
  rw [hAol, hEol] at hchar ⊢
  have hid : (resetStage mgr p).current_match_id = getMatchId p :=
    resetStage_id mgr p
  refine ⟨hid, ?_, ?_, ?_⟩
  · rw [mergeCats_lookup_not_mem _ _ hal,
      alookup_setKey_ne _ _ _ _ (by decide : ("allies" : String) ≠ "enemies"),
      alookup_setKey_self]
  · rw [mergeCats_lookup_not_mem _ _ hen, alookup_setKey_self]
  · show (if (extractLoop (minimapOf p) [] []).1.length +
        (extractLoop (minimapOf p) [] []).2.1.length = 10 then true
      else (resetStage mgr p).heroes_tracked) = _
    rw [hflag]

/-- C4: when an update's `map.matchid` differs from the stored id, the call
clears both hero lists and the tracked flag and adopts the new id: the
post-state hero data is computed from this payload's minimap alone, starting
from empty lists, and is therefore independent of the prior contents; in
particular a payload without minimap data leaves both lists empty and the
flag false. -/
theorem c4_matchid_change_reset (mgr : StateManager) (p : Payload)
    (hdiff : getMatchId p ≠ mgr.current_match_id) (hp : WFPayload p = true) :
    (update_state mgr p).current_match_id = getMatchId p ∧
    alookup (update_state mgr p).state "allies" =
      some (SVal.strs (extractLoop (minimapOf p) [] []).1) ∧
    alookup (update_state mgr p).state "enemies" =
      some (SVal.strs (extractLoop (minimapOf p) [] []).2.1) ∧
    (update_state mgr p).heroes_tracked =
      (if (extractLoop (minimapOf p) [] []).1.length +
          (extractLoop (minimapOf p) [] []).2.1.length = 10 then true
       else false) ∧
    (minimapOf p = [] →
      alookup (update_state mgr p).state "allies" = some (SVal.strs []) ∧
      alookup (update_state mgr p).state "enemies" = some (SVal.strs []) ∧
      (update_state mgr p).heroes_tracked = false) := by
  obtain ⟨h1, h2, h3, h4⟩ := reset_update_char mgr p hdiff hp
  refine ⟨h1, h2, h3, h4, ?_⟩
  intro hmm
  rw [hmm] at h2 h3 h4
  exact ⟨h2, h3, h4⟩

/-- A manager mid-match with populated hero lists (C4 witness). -/
def c4mgr : StateManager :=
  ⟨[("allies", .strs ["ursa"]), ("enemies", .strs ["zeus"])],
   some (.str "7"), false⟩

/-- A payload for a different match with no minimap data (C4 witness). -/
def c4p : Payload := [("map", [("matchid", .str "8")])]

/-- Witness for C4: the match change wipes both lists and the flag. -/
theorem c4_matchid_change_reset_witness :
    (update_state c4mgr c4p).current_match_id = some (JVal.str "8") ∧
    alookup (update_state c4mgr c4p).state "allies" =
      some (SVal.strs []) ∧
    alookup (update_state c4mgr c4p).state "enemies" =
      some (SVal.strs []) ∧
    (update_state c4mgr c4p).heroes_tracked = false := by
  have h := c4_matchid_change_reset c4mgr c4p (by decide) (by decide)
  obtain ⟨h2, h3, h4⟩ := h.2.2.2.2 (by decide)
  exact ⟨h.1, h2, h3, h4⟩

/-- C10 (implicit): an update whose payload lacks a `map` category, or whose
`map` lacks a `matchid` key, compares `None` against the stored id; when an
id is stored this differs, so the call clears both hero lists, resets the
flag (up to this payload's own minimap heroes) and stores the absent id. -/
theorem c10_missing_matchid_resets (mgr : StateManager) (p : Payload)
    (hstored : ∃ j, mgr.current_match_id = some j)
    (hnone : getMatchId p = none) (hp : WFPayload p = true) :
    (update_state mgr p).current_match_id = none ∧
    alookup (update_state mgr p).state "allies" =
      some (SVal.strs (extractLoop (minimapOf p) [] []).1) ∧
    alookup (update_state mgr p).state "enemies" =
      some (SVal.strs (extractLoop (minimapOf p) [] []).2.1) ∧
    (update_state mgr p).heroes_tracked =
      (if (extractLoop (minimapOf p) [] []).1.length +
          (extractLoop (minimapOf p) [] []).2.1.length = 10 then true
       else false) ∧
    (minimapOf p = [] →
      alookup (update_state mgr p).state "allies" = some (SVal.strs []) ∧
      alookup (update_state mgr p).state "enemies" = some (SVal.strs []) ∧
      (update_state mgr p).heroes_tracked = false) := by
  obtain ⟨j, hj⟩ := hstored
  have hdiff : getMatchId p ≠ mgr.current_match_id := by
    rw [hnone, hj]
    simp
  obtain ⟨h1, h2, h3, h4⟩ := reset_update_char mgr p hdiff hp
  rw [hnone] at h1
  refine ⟨h1, h2, h3, h4, ?_⟩
  intro hmm
  rw [hmm] at h2 h3 h4
  exact ⟨h2, h3, h4⟩

/-- A payload with neither `map` nor `minimap` (C10 witness). -/
def c10p : Payload := [("player", [("kills", .int 3)])]

/-- Witness for C10: a map-less payload resets the match context. -/
theorem c10_missing_matchid_resets_witness :
    (update_state c4mgr c10p).current_match_id = none ∧
    alookup (update_state c4mgr c10p).state "allies" =
      some (SVal.strs []) ∧
    alookup (update_state c4mgr c10p).state "enemies" =
      some (SVal.strs []) ∧
    (update_state c4mgr c10p).heroes_tracked = false := by
  have h := c10_missing_matchid_resets c4mgr c10p ⟨JVal.str "7", by decide⟩
    (by decide) (by decide)
  obtain ⟨h2, h3, h4⟩ := h.2.2.2.2 (by decide)
  exact ⟨h.1, h2, h3, h4⟩

/-- The inductive invariant for C5: well-formed state plus the tracked-flag
cardinality property. -/
def heroInv (mgr : StateManager) : Prop :=
  WFState mgr.state = true ∧
  (mgr.heroes_tracked = true ↔ heroCount mgr = 10)

theorem update_state_extract_eq (mgr : StateManager) (p : Payload)
    (hwf : WFState mgr.state = true) (hp : WFPayload p = true)
    (hft : (resetStage mgr p).heroes_tracked = false) :
    update_state mgr p =
      { state := (mergeCats (setKey (setKey (ensureHeroKeys
            (resetStage mgr p).state) "allies"
            (SVal.strs (extractLoop (minimapOf p)
              (alliesOf (resetStage mgr p).state)
              (enemiesOf (resetStage mgr p).state)).1)) "enemies"
            (SVal.strs (extractLoop (minimapOf p)
              (alliesOf (resetStage mgr p).state)
              (enemiesOf (resetStage mgr p).state)).2.1)) p).1,
        current_match_id := (resetStage mgr p).current_match_id,
        heroes_tracked :=
          if (extractLoop (minimapOf p)
              (alliesOf (resetStage mgr p).state)
              (enemiesOf (resetStage mgr p).state)).1.length +
             (extractLoop (minimapOf p)
              (alliesOf (resetStage mgr p).state)
              (enemiesOf (resetStage mgr p).state)).2.1.length = 10 then true
          else (resetStage mgr p).heroes_tracked } := by
  have hwf1 : WFState (resetStage mgr p).state = true := resetStage_wf hwf p
  have hok : (extractLoop (minimapOf p) (alliesOf (resetStage mgr p).state)
      (enemiesOf (resetStage mgr p).state)).2.2 = true :=
    extractLoop_ok (wfPayload_parts hp).2.2 _ _
  rw [update_state_def, if_neg (by rw [hft]; simp),
    extract_char p (resetStage mgr p) (wf_ha hwf1) (wf_he hwf1) hok]

theorem heroInv_step {mgr : StateManager} {p : Payload} (hinv : heroInv mgr)
    (hp : WFPayload p = true) : heroInv (update_state mgr p) := by
  obtain ⟨hwf, hiff⟩ := hinv
  obtain ⟨hkeys, hnodup, hmm⟩ := wfPayload_parts hp
  have hal : "allies" ∉ payloadKeys p :=
    fun h => allies_not_known (hkeys _ h)
  have hen : "enemies" ∉ payloadKeys p :=
    fun h => enemies_not_known (hkeys _ h)
  have hwf1 : WFState (resetStage mgr p).state = true := resetStage_wf hwf p
  have hinv1 : (resetStage mgr p).heroes_tracked = true ↔
      heroCount (resetStage mgr p) = 10 := by
    unfold resetStage
    split
    · have hla : alookup (setKey (setKey mgr.state "allies" (SVal.strs []))
          "enemies" (SVal.strs [])) "allies" = some (SVal.strs []) := by
        rw [alookup_setKey_ne _ _ _ _
          (by decide : ("allies" : String) ≠ "enemies"), alookup_setKey_self]
      have hle : alookup (setKey (setKey mgr.state "allies" (SVal.strs []))
          "enemies" (SVal.strs [])) "enemies" = some (SVal.strs []) := by
        rw [alookup_setKey_self]
      simp [heroCount, alliesOf, enemiesOf, hla, hle]
    · exact hiff
  by_cases hft : (resetStage mgr p).heroes_tracked = true
  · rw [update_state_def, if_pos hft]
    constructor
    · exact mergeCats_wf hwf1 hkeys
    · show (resetStage mgr p).heroes_tracked = true ↔ _
      have hc : heroCount { resetStage mgr p with
          state := (mergeCats (resetStage mgr p).state p).1 } =
          heroCount (resetStage mgr p) := by
        unfold heroCount alliesOf enemiesOf
        rw [mergeCats_lookup_not_mem _ _ hal, mergeCats_lookup_not_mem _ _ hen]
      rw [hc]
      exact hinv1
  · have hfb : (resetStage mgr p).heroes_tracked = false := by
      cases hx : (resetStage mgr p).heroes_tracked with
      | false => rfl
      | true => exact absurd hx hft
    rw [update_state_extract_eq mgr p hwf hp hfb]
    generalize extractLoop (minimapOf p) (alliesOf (resetStage mgr p).state)
      (enemiesOf (resetStage mgr p).state) = R
    have hwf2 : WFState (setKey (setKey (ensureHeroKeys
        (resetStage mgr p).state) "allies" (SVal.strs R.1)) "enemies"
        (SVal.strs R.2.1)) = true :=
      wfState_setKey (wfState_setKey (ensure_wf hwf1) (wfSVal_strs_allies _))
        (wfSVal_strs_enemies _)
    have hla : alookup ((mergeCats (setKey (setKey (ensureHeroKeys
        (resetStage mgr p).state) "allies" (SVal.strs R.1)) "enemies"
        (SVal.strs R.2.1)) p).1) "allies" = some (SVal.strs R.1) := by
      rw [mergeCats_lookup_not_mem _ _ hal,
        alookup_setKey_ne _ _ _ _
          (by decide : ("allies" : String) ≠ "enemies"),
        alookup_setKey_self]
    have hle : alookup ((mergeCats (setKey (setKey (ensureHeroKeys
        (resetStage mgr p).state) "allies" (SVal.strs R.1)) "enemies"
        (SVal.strs R.2.1)) p).1) "enemies" = some (SVal.strs R.2.1) := by
      rw [mergeCats_lookup_not_mem _ _ hen, alookup_setKey_self]
    constructor
    · exact mergeCats_wf hwf2 hkeys
    · simp only [heroCount, alliesOf, enemiesOf, hla, hle, hfb]
      split
      · rename_i hn
        simp [hn]
      · rename_i hn
        simp [hn]

theorem reachable_heroInv {mgr : StateManager} (h : Reachable mgr) :
    heroInv mgr := by
  induction h with
  | init => exact ⟨rfl, by simp [initManager, heroCount, alliesOf,
      enemiesOf, alookup]⟩
  | step mgr p _ hp ih => exact heroInv_step ih hp

/-- C5: in every state reachable through endpoint-shaped updates,
`heroes_tracked` is true exactly when `|allies| + |enemies| = 10`: the flag
flips in the same `update_state` call in which the combined count reaches
10, and is never true while the count differs from 10. -/
theorem c5_tracked_iff_ten {mgr : StateManager} (h : Reachable mgr) :
    mgr.heroes_tracked = true ↔ heroCount mgr = 10 :=
  (reachable_heroInv h).2

/-- Witness for C5 at the fresh manager. -/
theorem c5_tracked_iff_ten_witness :
    initManager.heroes_tracked = true ↔ heroCount initManager = 10 :=
  c5_tracked_iff_ten Reachable.init

/-!  ### C2 — ingestion endpoint validation -/

/-- A POST body with an unknown top-level key next to real map data. -/
def c2raw : List (String × JVal) :=
  [("foo", .obj (.cons "x" (.int 1) .nil)),
   ("map", .obj (.cons "matchid" (.str "1") .nil))]

/-- Counterexample to C2: the claim says a payload with an unknown top-level
key is rejected with a client error and never merged; in fact pydantic's
default configuration ignores the extra key, so `receive_game_state`
answers `received` and the map category is merged into the store. -/
theorem c2_unknown_key_counterexample :
    (receive_game_state initManager c2raw).1 = GsiResponse.received ∧
    alookup (receive_game_state initManager c2raw).2.state "map" =
      some (SVal.obj [("matchid", JVal.str "1")]) := by
  constructor <;> rfl

theorem parseCats_total (raw : List (String × JVal)) (cats : List String)
    (h : ∀ c ∈ cats, (parseCat raw c).isSome) :
    ∃ fields, parseCats raw cats = some fields ∧
      fields.map Prod.fst = cats ∧
      ∀ cd ∈ fields, parseCat raw cd.1 = some cd.2 := by
  induction cats with
  | nil => exact ⟨[], rfl, rfl, by simp⟩
  | cons c rest ih =>
    have hc : (parseCat raw c).isSome := h c (by simp)
    obtain ⟨o, ho⟩ := Option.isSome_iff_exists.mp hc
    obtain ⟨tl, htl, hkeys, hvals⟩ := ih (fun q hq => h q (by simp [hq]))
    refine ⟨(c, o) :: tl, ?_, by simp [hkeys], ?_⟩
    · unfold parseCats
      rw [ho, htl]
    · intro cd hcd
      rcases List.mem_cons.mp hcd with rfl | hcd
      · exact ho
      · exact hvals cd hcd

/-- C2 amended: unknown top-level keys are silently ignored by the model
parse (validation succeeds whenever every known category is absent or a
dict, whatever other keys are present, and the parsed update carries exactly
the nine known categories); a payload whose known categories are all empty
is accepted as `empty` and performs no merge. -/
theorem c2_amended_unknown_ignored (raw : List (String × JVal))
    (hshape : ∀ c ∈ knownCategories, (parseCat raw c).isSome) :
    (parseGameStateUpdate raw).isSome = true ∧
    (∀ fields, parseGameStateUpdate raw = some fields →
      payloadKeys fields = knownCategories ∧
      ∀ cd ∈ fields, parseCat raw cd.1 = some cd.2) ∧
    ((∀ c ∈ knownCategories, parseCat raw c = some []) →
      ∀ mgr, receive_game_state mgr raw = (.empty, mgr)) := by
  obtain ⟨fields, hparse, hkeys, hvals⟩ :=
    parseCats_total raw knownCategories hshape
  refine ⟨by simp [parseGameStateUpdate, hparse], ?_, ?_⟩
  · intro f hf
    rw [parseGameStateUpdate] at hf
    rw [hparse] at hf
    injection hf with hf
    subst hf
    exact ⟨hkeys, hvals⟩
  · intro hempty mgr
    have hall : fields.all (fun cd => cd.2.isEmpty) = true := by
      rw [List.all_eq_true]
      intro cd hcd
      have hmem : cd.1 ∈ knownCategories := by
        rw [← hkeys]
        exact List.mem_map.mpr ⟨cd, hcd, rfl⟩
      have h1 := hvals cd hcd
      have h2 := hempty cd.1 hmem
      rw [h1] at h2
      injection h2 with h2
      simp [← h2]
    unfold receive_game_state
    rw [show parseGameStateUpdate raw = some fields from hparse]
    show (if (List.all fields fun cd => cd.2.isEmpty) = true then
        (GsiResponse.empty, mgr)
      else (GsiResponse.received, update_state mgr fields)) =
      (GsiResponse.empty, mgr)
    rw [hall]
    simp

/-- Witness for the amended C2: a body carrying only an unknown key parses
successfully and is answered `empty` without touching the store. -/
theorem c2_amended_unknown_ignored_witness :
    (parseGameStateUpdate [("foo", JVal.str "x")]).isSome = true ∧
    receive_game_state initManager [("foo", JVal.str "x")] =
      (GsiResponse.empty, initManager) := by
  have h := c2_amended_unknown_ignored [("foo", JVal.str "x")] (by decide)
  exact ⟨h.1, h.2.2 (by decide) initManager⟩

/-!  ### C6 — nearest landmark and direction -/

theorem directionFrom_eq_spec (dx dy : Int) :
    directionFrom dx dy = specDirection dx dy := by
  unfold directionFrom specDirection
  split_ifs <;> first | rfl | omega

/-- Counterexample to C6: at `(0,0)` against `A = (1,0)`, `B = (0,-1)` the
scan keeps `A` (tie broken by first arrival) and `dx = 0 - 1 = -1 ≤ 0`, so
the code answers `west of`, not the claimed `east of`. -/
theorem c6_nearest_counterexample :
    find_closest_landmark 0 0 [("A", 1, 0), ("B", 0, -1)] = ("A", "west of") ∧
    (("A", "west of") : String × String) ≠ ("A", "east of") := by
  constructor
  · rfl
  · decide

/-- C6 amended: the call returns `("A", "west of")` — consistent with the
claim's own direction rule, which the code implements exactly. -/
theorem c6_nearest_amended :
    find_closest_landmark 0 0 [("A", 1, 0), ("B", 0, -1)] = ("A", "west of") ∧
    ∀ dx dy : Int, directionFrom dx dy = specDirection dx dy :=
  ⟨rfl, directionFrom_eq_spec⟩

/-!  ### C7 — item filtering -/

/-- A game state whose only item slot is named `item_empty`. -/
def c7state : List (String × JVal) :=
  [("items", .obj (.cons "slot0"
    (.obj (.cons "name" (.str "item_empty") .nil)) .nil))]

/-- Counterexample to C7: the filter drops slots whose `name` equals
`"empty"`, not `"item_empty"`, so this state renders an Items line
(`Items: empty` after prefix stripping) instead of omitting the section. -/
theorem c7_items_counterexample :
    convert_game_state_to_text c7state =
      some ("=== DOTA 2 GAME STATE ===\nItems: empty", "Unknown Hero") ∧
    pyIn "Items:" "=== DOTA 2 GAME STATE ===\nItems: empty" = true := by
  constructor
  · rfl
  · rfl

/-- C7 amended: the Items section is omitted when the slot's `name` is the
string `"empty"`; a slot named `"item_empty"` survives the filter and
renders as `empty`. -/
theorem c7_items_amended :
    convert_game_state_to_text
      [("items", .obj (.cons "slot0"
        (.obj (.cons "name" (.str "empty") .nil)) .nil))] =
      some ("=== DOTA 2 GAME STATE ===\nNo valid game state data available.",
        "Unknown Hero") ∧
    convert_game_state_to_text c7state =
      some ("=== DOTA 2 GAME STATE ===\nItems: empty", "Unknown Hero") := by
  constructor
  · rfl
  · rfl

/-!  ### C8 — error handling granularity of the render -/

/-- Map data plus a buildings category whose only entry divides by zero. -/
def c8state : List (String × JVal) :=
  [("map", .obj (.cons "matchid" (.str "7") .nil)),
   ("buildings", .obj (.cons "radiant" (.obj (.cons "top"
      (.obj (.cons "health" (.int 1) (.cons "max_health" (.int 0) .nil)))
      .nil)) .nil))]

/-- Counterexample to C8: one malformed category (buildings) suppresses the
whole render — the output is the fixed error text and the well-formed map
section is nowhere in it, contradicting the claim that the other sections
still render. -/
theorem c8_sections_counterexample :
    convert_game_state_to_text c8state =
      some ("Error processing game state.", "Unknown Hero") ∧
    pyIn "Match ID" "Error processing game state." = false := by
  constructor
  · rfl
  · rfl

/-- C8 amended: exceptions are caught once around all sections, so whatever
the map category contains, a raising buildings entry makes the whole render
return the fixed error text and no section at all. -/
theorem c8_sections_amended (mo : List (String × JVal)) :
    convert_game_state_to_text
      [("map", .obj (JObj.ofList mo)),
       ("buildings", .obj (.cons "radiant" (.obj (.cons "top"
          (.obj (.cons "health" (.int 1) (.cons "max_health" (.int 0) .nil)))
          .nil)) .nil))] =
      some ("Error processing game state.", "Unknown Hero") := by
  cases mo with
  | nil => rfl
  | cons hd tl => rfl

/-!  ### C9 — building health percentage -/

/-- A buildings category with one building of the given health values. -/
def c9bld (h m : Int) : JVal :=
  .obj (.cons "radiant" (.obj (.cons "top"
    (.obj (.cons "health" (.int h) (.cons "max_health" (.int m) .nil)))
    .nil)) .nil)

/-- Counterexample to C9: at `health = 2`, `max_health = 3` the code renders
`66%` (`int(...)` truncation) while the claimed formula rounds to `67`; and
a present `max_health` of `0` is divided by directly (`ZeroDivisionError`,
modelled as the raising `none`), not replaced by `1`. -/
theorem c9_building_percent_counterexample :
    _process_buildings_data (c9bld 2 3) =
      some "Radiant Buildings: top(66%)" ∧
    specBuildingPercent 2 3 = 67 ∧ (66 : Int) ≠ 67 ∧
    _process_buildings_data (c9bld 1 0) = none := by
  refine ⟨rfl, ?_, by decide, rfl⟩
  unfold specBuildingPercent
  norm_num [round_eq]

/-- C9 amended: the rendered building percentage is Python's
`int((health / max_health) * 100)` computed in binary64 floating point
(`pyPercent`): truncated rather than rounded (health 2 of 3 renders 66
where the claimed formula rounds to 67), and subject to the float's double
rounding (health 29 of 100 renders 28 where exact integer truncation gives
29); the default `1` applies only when the `max_health` key is absent
(health 7 alone renders 700%); and a present `max_health` of `0` raises
`ZeroDivisionError`, aborting the section (and with it the whole render). -/
theorem c9_building_percent_amended :
    (∀ (h : Int) (team bname : String),
      _process_buildings_data (JVal.obj (.cons team (.obj (.cons bname
        (.obj (.cons "health" (.int h) (.cons "max_health" (.int 0) .nil)))
        .nil)) .nil)) = none) ∧
    _process_buildings_data (c9bld 29 100) =
      some "Radiant Buildings: top(28%)" ∧
    pyPercent 29 100 = 28 ∧ (29 * 100) / (100 : Int) = 29 ∧
    (28 : Int) ≠ 29 ∧
    _process_buildings_data (.obj (.cons "dire" (.obj (.cons "t1"
      (.obj (.cons "health" (.int 7) .nil)) .nil)) .nil)) =
      some "Dire Buildings: t1(700%)" := by
  refine ⟨?_, rfl, by decide, by decide, by decide, rfl⟩
  intro h team bname
  rfl
